import Mathlib

/-!
# SFND 2D feature matching: frame buffer, ROI filter, matcher and sweep

A shallow embedding of `MidTermProject_Camera_Student.cpp` and
`matching2D_Student.cpp`.  Vectors are lists; an iterator into a vector that
is erased from is an index, one that only reads or overwrites walks the list;
a null dereference is `none`; `float` values are the rational numbers they
are, with the binary32 product rounded to nearest; the OpenCV capabilities the
two files call are parameters.  A read `row[k]` of a k-NN row is either
bound-checked (`none` outside the row) or performed as `operator[]` does
(some unspecified value outside the row).
-/

set_option autoImplicit false
set_option linter.unusedVariables false

namespace SFND

/-! ## Data model -/

/-- The fields of `cv::KeyPoint` that the two source files read or write:
the position `pt` (a `cv::Point2f`), `size` and `response`, all finite
`float`s and kept as the rational numbers they are. -/
structure KeyPoint where
  x : ℚ
  y : ℚ
  size : ℚ
  response : ℚ
  deriving DecidableEq, Repr

/-- The integer rectangle `cv::Rect(x, y, width, height)`. -/
structure Rect where
  x : Int
  y : Int
  width : Int
  height : Int
  deriving DecidableEq, Repr

/-- The rounding `cvRound` by which OpenCV converts a `float` coordinate to
`int`: the nearest integer, a tie going to the even one. -/
def cvRound (q : ℚ) : Int :=
  if q - ⌊q⌋ < 1 / 2 then ⌊q⌋
  else if q - ⌊q⌋ > 1 / 2 then ⌊q⌋ + 1
  else if ⌊q⌋ % 2 = 0 then ⌊q⌋
  else ⌊q⌋ + 1

/-- The call `vehicleRect.contains(it->pt)` of line 138 on a rectangle of
`int`s: the `cv::Point2f` is converted to a `cv::Point` of `int`s, each
coordinate rounded by `cvRound`, and the rounded point is tested against the
half-open rectangle, `x <= pt.x < x + width` and `y <= pt.y < y + height`. -/
def Rect.contains (r : Rect) (pt : KeyPoint) : Bool :=
  decide (r.x ≤ cvRound pt.x) && decide (cvRound pt.x < r.x + r.width) &&
    decide (r.y ≤ cvRound pt.y) && decide (cvRound pt.y < r.y + r.height)

/-- The constant `cv::Rect vehicleRect(535, 180, 180, 150)` of `processImages`. -/
def vehicleRect : Rect := ⟨535, 180, 180, 150⟩

/-! ## Frame buffer (`processImages`, lines 65-97) -/

/-- The constant `int dataBufferSize = 2`. -/
def dataBufferSize : Nat := 2

/-- The guarded `dataBuffer.erase(dataBuffer.begin())` of lines 90-93. -/
def evictIfFull {α : Type} (cap : Nat) (dataBuffer : List α) : List α :=
  if dataBuffer.length ≥ cap then dataBuffer.eraseIdx 0 else dataBuffer

/-- Lines 90-97: erase the oldest frame when the buffer is full, then
`push_back` the new frame. -/
def pushFrame {α : Type} (cap : Nat) (dataBuffer : List α) (frame : α) : List α :=
  evictIfFull cap dataBuffer ++ [frame]

/-- The buffer after pushing the frames of `frames`, oldest first, into an
empty buffer. -/
def pushAll {α : Type} (cap : Nat) (frames : List α) : List α :=
  frames.foldl (pushFrame cap) []

/-! ## Sweep harness (`main`, lines 25-43) -/

/-- The list `detectors` of `main`. -/
def detectors : List String :=
  ["SHITOMASI", "HARRIS", "FAST", "BRISK", "ORB", "AKAZE", "SIFT"]

/-- The list `descriptors` of `main`. -/
def descriptors : List String :=
  ["BRISK", "BRIEF", "ORB", "FREAK", "AKAZE", "SIFT"]

/-- The condition of line 38 under which a pair is reported as an invalid
combination and skipped. -/
def invalidCombination (det des : String) : Bool :=
  (det != "AKAZE" && des == "AKAZE") || (det == "SIFT" && des == "ORB")

/-- The state threaded through the sweep: the report the pipeline writes to
and the `invalid combination` lines printed to `cout`. -/
structure SweepState (σ : Type) where
  excel_file : σ
  skipped : List (String × String)

/-- The body of the inner loop (lines 38-41) for one pair; `processImages`
is the callee, acting on the report. -/
def sweepStep {σ : Type} (processImages : σ → String → String → σ)
    (s : SweepState σ) (det des : String) : SweepState σ :=
  if invalidCombination det des then
    { s with skipped := s.skipped ++ [(det, des)] }
  else
    { s with excel_file := processImages s.excel_file det des }

/-- The two nested loops of `main` (lines 34-43) over arbitrary name lists. -/
def sweep {σ : Type} (processImages : σ → String → String → σ)
    (dets dess : List String) (s : SweepState σ) : SweepState σ :=
  dets.foldl (fun s det => dess.foldl (fun s des => sweepStep processImages s det des) s) s

/-- The sweep of `main` over its fixed lists, starting from the opened report. -/
def main {σ : Type} (processImages : σ → String → String → σ) (excel_file : σ) :
    SweepState σ :=
  sweep processImages detectors descriptors ⟨excel_file, []⟩

/-- All pairs in visiting order: detectors outer, descriptors inner. -/
def allPairs (dets dess : List String) : List (String × String) :=
  dets.foldr (fun det acc => dess.map (fun des => (det, des)) ++ acc) []

/-- The pairs of the fixed lists that are not an invalid combination. -/
def acceptedPairs : List (String × String) :=
  (allPairs detectors descriptors).filter (fun p => !invalidCombination p.1 p.2)

/-- The pairs of the fixed lists that are an invalid combination. -/
def rejectedPairs : List (String × String) :=
  (allPairs detectors descriptors).filter (fun p => invalidCombination p.1 p.2)

/-- A call-count spy: the callee that records the pair it is invoked with. -/
def spy (calls : List (String × String)) (det des : String) : List (String × String) :=
  calls ++ [(det, des)]

/-! ## ROI filter (`processImages`, lines 131-147) -/

/-- The loop of lines 135-145, started with the iterator at index `it`: stop
when `it` is `keypoints.end()`; erase the element under `it` and leave `it`
where it is when the rectangle does not contain it; advance `it` otherwise.
`fuel` bounds the number of evaluations of the loop condition, and reading
past the end of the vector is `none`. -/
def roiLoop (rect : Rect) : Nat → List KeyPoint → Nat → Option (List KeyPoint)
  | 0, _, _ => none
  | fuel + 1, keypoints, it =>
    if it = keypoints.length then some keypoints
    else
      match keypoints[it]? with
      | none => none
      | some kp =>
        if !rect.contains kp then roiLoop rect fuel (keypoints.eraseIdx it) it
        else roiLoop rect fuel keypoints (it + 1)

/-- Lines 131-147 with `bFocusOnVehicle = true`: the loop from
`keypoints.begin()`, with one evaluation of the loop condition per element of
the input and one for the exit. -/
def focusOnVehicle (keypoints : List KeyPoint) : Option (List KeyPoint) :=
  roiLoop vehicleRect (keypoints.length + 1) keypoints 0

/-! ## Single-precision arithmetic of the ratio test

A finite `float` is a rational number, so `float` values are kept in `ℚ`; the
comparison of two floats is the comparison of rationals, and the product of
two floats is the exact product rounded to the nearest binary32 value. -/

/-- The integer nearest to `n / d` for `d > 0`, a tie going to the even one. -/
def roundHalfEven (n d : Nat) : Nat :=
  if 2 * (n % d) < d then n / d
  else if 2 * (n % d) > d then n / d + 1
  else if (n / d) % 2 = 0 then n / d
  else n / d + 1

/-- The number of binary digits of `n`, with `fuel` at least that number. -/
def bitLength : Nat → Nat → Nat
  | 0, _ => 0
  | fuel + 1, n => if n = 0 then 0 else bitLength fuel (n / 2) + 1

/-- The position of the leading binary digit of `n > 0`. -/
def leadingBit (n : Nat) : Nat := bitLength n n - 1

/-- The exponent `e` with `2 ^ e ≤ n / d < 2 ^ (e + 1)`, for `n, d > 0`. -/
def floorLog2 (n d : Nat) : Int :=
  if (leadingBit n : Int) - leadingBit d ≥ 0 then
    (if n ≥ d * 2 ^ (leadingBit n - leadingBit d) then (leadingBit n : Int) - leadingBit d
     else (leadingBit n : Int) - leadingBit d - 1)
  else
    (if n * 2 ^ (leadingBit d - leadingBit n) ≥ d then (leadingBit n : Int) - leadingBit d
     else (leadingBit n : Int) - leadingBit d - 1)

/-- The binary32 value nearest to `q` (round to nearest, ties to even): 24
significant bits, exponents from `-126` with gradual underflow below.
Overflow to infinity is not modelled; the ratio test multiplies a finite
distance by a factor below 1. -/
def roundF32 (q : ℚ) : ℚ :=
  if q = 0 then 0
  else
    let n := q.num.natAbs
    let d := q.den
    let p : Int := max (floorLog2 n d) (-126) - 23
    let m := roundHalfEven (n * 2 ^ (-p).toNat) (d * 2 ^ p.toNat)
    (q.num.sign : ℚ) * ((m * 2 ^ p.toNat : Nat) : ℚ) / ((2 ^ (-p).toNat : Nat) : ℚ)

/-- The value stored by `float distanceThresh = 0.8` (line 14): the binary32
value nearest to 0.8, `13421773 / 2 ^ 24`. -/
def distanceThresh : ℚ := 13421773 / 16777216

/-- The product of two `float`s. -/
def mulF32 (a b : ℚ) : ℚ := roundF32 (a * b)

/-! ## Descriptor matcher (`matchDescriptors`) -/

/-- The fields of `cv::DMatch`; `distance` is a finite `float`. -/
structure DMatch where
  queryIdx : Nat
  trainIdx : Nat
  distance : ℚ
  deriving DecidableEq, Repr

/-- The two norm constants `matchDescriptors` chooses between. -/
inductive NormType where
  | NORM_L2
  | NORM_HAMMING
  deriving DecidableEq, Repr

/-- The matcher objects `matchDescriptors` creates. -/
inductive Matcher where
  | BFMatcher (normType : NormType) (crossCheck : Bool)
  | FlannBasedMatcher
  deriving DecidableEq, Repr

/-- The OpenCV capabilities called by `matchDescriptors`, over a type `Mat` of
descriptor matrices: `Mat::convertTo(_, CV_32F)`, `DescriptorMatcher::match`
and `DescriptorMatcher::knnMatch`. -/
structure MatchEnv (Mat : Type) where
  convertTo32F : Mat → Mat
  matchNN : Matcher → Mat → Mat → List DMatch
  knnMatch : Matcher → Mat → Mat → Nat → List (List DMatch)

/-- What a call of `matchDescriptors` leaves in its reference parameters. -/
structure MatchResult (Mat : Type) where
  matches_ : List DMatch
  descSource : Mat
  descRef : Mat

/-- Lines 18-25: the norm of the brute-force matcher. -/
def bfNormType (descriptorType : String) : NormType :=
  if descriptorType = "DES_HOG" then NormType.NORM_L2 else NormType.NORM_HAMMING

/-- The read `row[k]` of a row of the k-NN result with the bound checked: a
read outside the row is `none`. -/
def checkedRead (row : List DMatch) (k : Nat) : Option DMatch := row[k]?

/-- The read `row[k]` as `std::vector::operator[]` performs it, without a
bound check: a read outside the row yields whatever lies behind the row,
`oob row k`. -/
def uncheckedRead (oob : List DMatch → Nat → DMatch) (row : List DMatch) (k : Nat) :
    Option DMatch :=
  some ((row[k]?).getD (oob row k))

/-- The ratio-test loop of lines 47-51 with `n` iterations left and loop
variable `i`; `matches_vect[i][0]` and `matches_vect[i][1]` are read with
`read` before the comparison
`matches_vect[i][0].distance < distanceThresh * matches_vect[i][1].distance`. -/
def ratioLoopWith (read : List DMatch → Nat → Option DMatch)
    (matches_vect : List (List DMatch)) :
    Nat → Nat → List DMatch → Option (List DMatch)
  | 0, _, matches_ => some matches_
  | n + 1, i, matches_ =>
    match matches_vect[i]? with
    | none => none
    | some row =>
      match read row 0, read row 1 with
      | some m0, some m1 =>
        if m0.distance < mulF32 distanceThresh m1.distance then
          ratioLoopWith read matches_vect n (i + 1) (matches_ ++ [m0])
        else
          ratioLoopWith read matches_vect n (i + 1) matches_
      | _, _ => none

/-- Lines 47-51: the loop for `i` from `0` up to `matches_vect.size()`. -/
def ratioFilterWith (read : List DMatch → Nat → Option DMatch)
    (matches_vect : List (List DMatch)) (matches_ : List DMatch) : Option (List DMatch) :=
  ratioLoopWith read matches_vect matches_vect.length 0 matches_

/-- The function `matchDescriptors` (lines 7-54), the rows of the k-NN result
being read with `read`.  `matcher` is a null pointer unless `matcherType` is
`MAT_BF` or `MAT_FLANN`, and dereferencing it is `none`; `SEL_NN` overwrites
`matches`, `SEL_KNN` appends to it, any other selector leaves it alone. -/
def matchDescriptorsWith {Mat : Type} (read : List DMatch → Nat → Option DMatch)
    (env : MatchEnv Mat)
    (kPtsSource kPtsRef : List KeyPoint) (descSource descRef : Mat)
    (matches_ : List DMatch) (descriptorType matcherType selectorType : String) :
    Option (MatchResult Mat) :=
  let crossCheck := false
  let configured : Option Matcher × Mat × Mat :=
    if matcherType = "MAT_BF" then
      (some (Matcher.BFMatcher (bfNormType descriptorType) crossCheck), descSource, descRef)
    else if matcherType = "MAT_FLANN" then
      (some Matcher.FlannBasedMatcher, env.convertTo32F descSource, env.convertTo32F descRef)
    else
      (none, descSource, descRef)
  let matcher := configured.1
  let descSource := configured.2.1
  let descRef := configured.2.2
  if selectorType = "SEL_NN" then
    match matcher with
    | none => none
    | some m => some ⟨env.matchNN m descSource descRef, descSource, descRef⟩
  else if selectorType = "SEL_KNN" then
    match matcher with
    | none => none
    | some m =>
      match ratioFilterWith read (env.knnMatch m descSource descRef 2) matches_ with
      | none => none
      | some out => some ⟨out, descSource, descRef⟩
  else
    some ⟨matches_, descSource, descRef⟩

/-- The ratio-test loop with every read of a row bound-checked. -/
def ratioLoop (matches_vect : List (List DMatch)) :
    Nat → Nat → List DMatch → Option (List DMatch) :=
  ratioLoopWith checkedRead matches_vect

/-- The loop for `i` from `0` up to `matches_vect.size()` with every read of
a row bound-checked. -/
def ratioFilter (matches_vect : List (List DMatch)) (matches_ : List DMatch) :
    Option (List DMatch) :=
  ratioFilterWith checkedRead matches_vect matches_

/-- The function `matchDescriptors` with every read of a row bound-checked:
`none` when the ratio-test loop reads outside a row. -/
def matchDescriptors {Mat : Type} (env : MatchEnv Mat)
    (kPtsSource kPtsRef : List KeyPoint) (descSource descRef : Mat)
    (matches_ : List DMatch) (descriptorType matcherType selectorType : String) :
    Option (MatchResult Mat) :=
  matchDescriptorsWith checkedRead env kPtsSource kPtsRef descSource descRef matches_
    descriptorType matcherType selectorType

/-- The ratio test as the code computes it: a row with closest match `m0` and
second-closest `m1` is accepted iff `m0.distance` is below the binary32
product of `distanceThresh` and `m1.distance`. -/
def ratioAccepts (row : DMatch × DMatch × List DMatch) : Bool :=
  decide (row.1.distance < mulF32 distanceThresh row.2.1.distance)

/-- A k-NN result row with a closest match, a second-closest match and
possibly further candidates, as the vector the search capability returns. -/
def knnRow (row : DMatch × DMatch × List DMatch) : List DMatch :=
  row.1 :: row.2.1 :: row.2.2

/-- A search capability that returns the same k-NN result for every query,
with identity conversion and no nearest-neighbour matches. -/
def constSearch (matches_vect : List (List DMatch)) : MatchEnv Unit :=
  ⟨fun m => m, fun _ _ _ => [], fun _ _ _ _ => matches_vect⟩

/-! ## Harris detector (`detKeypointsHarris`, lines 142-194) -/

/-- The constant `int apertureSize = 3`. -/
def apertureSize : Int := 3

/-- The constant `int threshold = 100`. -/
def threshold : Nat := 100

/-- The constant `double maxOverlap = 0.0`. -/
def maxOverlap : ℚ := 0

/-- The scan of lines 175-185 over the accepted keypoints, the iterator
walking the list from its head: at the first element whose overlap with
`keypoint` exceeds `maxOverlap` the flag `bOverlap` is set, the element is
overwritten when its response is lower, and the loop breaks.  Returns the
vector and `bOverlap`. -/
def overlapScan (overlap : KeyPoint → KeyPoint → ℚ) (keypoint : KeyPoint) :
    List KeyPoint → List KeyPoint × Bool
  | [] => ([], false)
  | it :: rest =>
    if overlap it keypoint > maxOverlap then
      ((if it.response < keypoint.response then keypoint else it) :: rest, true)
    else
      ((it :: (overlapScan overlap keypoint rest).1), (overlapScan overlap keypoint rest).2)

/-- Lines 174-190: the scan, then `push_back` when nothing overlapped. -/
def insertCandidate (overlap : KeyPoint → KeyPoint → ℚ) (keypoints : List KeyPoint)
    (keypoint : KeyPoint) : List KeyPoint :=
  if !(overlapScan overlap keypoint keypoints).2 then
    (overlapScan overlap keypoint keypoints).1 ++ [keypoint]
  else
    (overlapScan overlap keypoint keypoints).1

/-- The inner loop of lines 164-193 over the remaining pixels of row `i`,
starting at column `j`. -/
def harrisRow (overlap : KeyPoint → KeyPoint → ℚ) (i : Nat) :
    List Nat → Nat → List KeyPoint → List KeyPoint
  | [], _, keypoints => keypoints
  | v :: rest, j, keypoints =>
    harrisRow overlap i rest (j + 1)
      (if v > threshold then
        insertCandidate overlap keypoints ⟨j, i, 2 * apertureSize, v⟩
      else keypoints)

/-- The outer loop of lines 162-194 over the remaining rows, starting at row `i`. -/
def harrisRows (overlap : KeyPoint → KeyPoint → ℚ) :
    List (List Nat) → Nat → List KeyPoint → List KeyPoint
  | [], _, keypoints => keypoints
  | row :: rest, i, keypoints =>
    harrisRows overlap rest (i + 1) (harrisRow overlap i row 0 keypoints)

/-- The keypoints `detKeypointsHarris` leaves in `keypoints`, given the
`unsigned char` response map `norm_conv` that `cornerHarris`, `normalize` and
`convertScaleAbs` produce from the image and the function
`cv::KeyPoint::overlap`. -/
def detKeypointsHarris (overlap : KeyPoint → KeyPoint → ℚ) (keypoints : List KeyPoint)
    (norm_conv : List (List Nat)) : List KeyPoint :=
  harrisRows overlap norm_conv 0 keypoints

/-- A stand-in for `cv::KeyPoint::overlap` with the sign of the OpenCV ratio:
positive exactly when the two discs of diameters `size` around the positions
intersect, which is all the comparison with `maxOverlap = 0` looks at. -/
def discOverlap (a b : KeyPoint) : ℚ :=
  if 4 * ((a.x - b.x) ^ 2 + (a.y - b.y) ^ 2) < (a.size + b.size) ^ 2 then 1 else 0

/-! ## Pipeline (`processImages`, lines 48-241) -/

/-- The fields of `DataFrame` (`dataStructures.h`) that `processImages` uses. -/
structure DataFrame (Img Mat : Type) where
  cameraImg : Img
  keypoints : List KeyPoint
  descriptors : Mat
  kptMatches : List DMatch

/-- One line written to the report by line 211. -/
structure ResultRow (T : Type) where
  detector : String
  keypoints : Nat
  det_time : T
  descriptor : String
  desc_time : T
  matchCount : Nat
  deriving DecidableEq, Repr

/-- The capabilities outside the two source files that one pipeline run
calls: the image of a file number as loaded and converted to grayscale,
`goodFeaturesToTrack`, the response map `norm_conv` computed from an image,
`cv::KeyPoint::overlap`, `detect` and `compute` of the detector or extractor
created for a name, the matcher capabilities, the default-constructed
`cv::Mat`, and the elapsed times the tick counter yields around detection and
description. -/
structure Env (Img Mat T : Type) where
  search : MatchEnv Mat
  emptyMat : Mat
  imread : Nat → Img
  goodFeaturesToTrack : Img → List (ℚ × ℚ)
  normConv : Img → List (List Nat)
  overlap : KeyPoint → KeyPoint → ℚ
  detect : String → Img → List KeyPoint
  compute : String → Img → List KeyPoint → List KeyPoint × Mat
  detTime : String → Img → T
  descTime : String → Img → T

/-- The function `detKeypointsShiTomasi` (lines 215-256): one keypoint of size
`blockSize = 4` per corner, appended to `keypoints`. -/
def detKeypointsShiTomasi {Img Mat T : Type} (env : Env Img Mat T)
    (keypoints : List KeyPoint) (img : Img) : List KeyPoint × T :=
  (keypoints ++ (env.goodFeaturesToTrack img).map (fun c => ⟨c.1, c.2, 4, 0⟩),
    env.detTime "SHITOMASI" img)

/-- The detector names for which `detKeypointsModern` creates a detector. -/
def modernDetectors : List String := ["FAST", "BRISK", "ORB", "AKAZE", "SIFT"]

/-- The function `detKeypointsModern` (lines 101-137): `detector` stays a null
pointer for any other name and `detector->detect` is then `none`. -/
def detKeypointsModern {Img Mat T : Type} (env : Env Img Mat T)
    (keypoints : List KeyPoint) (img : Img) (detectorType : String) :
    Option (List KeyPoint × T) :=
  if detectorType ∈ modernDetectors then
    some (env.detect detectorType img, env.detTime detectorType img)
  else none

/-- The descriptor names for which `descKeypoints` creates an extractor. -/
def knownDescriptors : List String := ["BRISK", "BRIEF", "ORB", "FREAK", "AKAZE", "SIFT"]

/-- The function `descKeypoints` (lines 57-99): `extractor` stays a null
pointer for any other name and `extractor->compute` is then `none`.  Returns
the keypoints and descriptors `compute` leaves, and the elapsed time. -/
def descKeypoints {Img Mat T : Type} (env : Env Img Mat T)
    (keypoints : List KeyPoint) (img : Img) (descriptorType : String) :
    Option (List KeyPoint × Mat × T) :=
  if descriptorType ∈ knownDescriptors then
    some ((env.compute descriptorType img keypoints).1,
      (env.compute descriptorType img keypoints).2, env.descTime descriptorType img)
  else none

/-- Lines 105-123: the detector dispatch of `processImages` on an empty
keypoint vector. -/
def detectKeypoints {Img Mat T : Type} (env : Env Img Mat T)
    (detectorType : String) (imgGray : Img) : Option (List KeyPoint × T) :=
  if detectorType = "SHITOMASI" then
    some (detKeypointsShiTomasi env [] imgGray)
  else if detectorType = "HARRIS" then
    some (detKeypointsHarris env.overlap [] (env.normConv imgGray), env.detTime "HARRIS" imgGray)
  else
    detKeypointsModern env [] imgGray detectorType

/-- Lines 193-199: the metric family passed to `matchDescriptors`. -/
def descriptorType2 (descriptorType : String) : String :=
  if descriptorType = "SIFT" then "DES_HOG" else "DES_BINARY"

/-- The variables that live across iterations of the image loop: the frame
buffer and the lines written to the report so far. -/
structure RunState (Img Mat T : Type) where
  dataBuffer : List (DataFrame Img Mat)
  excel_file : List (ResultRow T)

/-- The body of the image loop (lines 75-236) for loop variable `imgIndex`,
the rows of the k-NN result being read with `read`.
`older` is the buffer below the frame just pushed, so the buffer is
`older ++ [frame]`, `dataBuffer.end() - 1` is `frame` and
`dataBuffer.end() - 2` is the last element of `older`.  The branches behind
`bLimitKpts = false` and `bVis = false` never run and are left out. -/
def processImageWith {Img Mat T : Type} (read : List DMatch → Nat → Option DMatch)
    (env : Env Img Mat T)
    (detector descriptor : String) (imgStartIndex : Nat)
    (st : RunState Img Mat T) (imgIndex : Nat) : Option (RunState Img Mat T) :=
  let imgGray := env.imread (imgStartIndex + imgIndex)
  let older := evictIfFull dataBufferSize st.dataBuffer
  match detectKeypoints env detector imgGray with
  | none => none
  | some (detected, det_time) =>
    match focusOnVehicle detected with
    | none => none
    | some keypoints =>
      match descKeypoints env keypoints imgGray descriptor with
      | none => none
      | some (described, descriptors, desc_time) =>
        let frame : DataFrame Img Mat := ⟨imgGray, described, descriptors, []⟩
        if (older ++ [frame]).length > 1 then
          match older.getLast? with
          | none => none
          | some prev =>
            match matchDescriptorsWith read env.search prev.keypoints frame.keypoints
                prev.descriptors frame.descriptors [] (descriptorType2 descriptor)
                "MAT_BF" "SEL_KNN" with
            | none => none
            | some r =>
              some ⟨older.dropLast ++
                  [{ prev with descriptors := r.descSource },
                   { frame with descriptors := r.descRef, kptMatches := r.matches_ }],
                st.excel_file ++
                  [⟨detector, keypoints.length, det_time, descriptor, desc_time,
                    r.matches_.length⟩]⟩
        else
          some ⟨older ++ [frame], st.excel_file⟩

/-- The function `processImages` for the image file numbers `imgStartIndex`
to `imgEndIndex` (`imgStartIndex ≤ imgEndIndex`), the rows of the k-NN result
being read with `read`: the loop of line 73 runs `imgIndex` from `0` to
`imgEndIndex - imgStartIndex` on an empty buffer.  Returns the report after
the run. -/
def processImagesOnWith {Img Mat T : Type} (read : List DMatch → Nat → Option DMatch)
    (env : Env Img Mat T)
    (imgStartIndex imgEndIndex : Nat) (excel_file : List (ResultRow T))
    (detector descriptor : String) : Option (List (ResultRow T)) :=
  ((List.range (imgEndIndex - imgStartIndex + 1)).foldlM
    (processImageWith read env detector descriptor imgStartIndex) ⟨[], excel_file⟩).map
    (fun st => st.excel_file)

/-- The function `processImages` with its constants `imgStartIndex = 0` and
`imgEndIndex = 9`, the rows of the k-NN result being read with `read`. -/
def processImagesWith {Img Mat T : Type} (read : List DMatch → Nat → Option DMatch)
    (env : Env Img Mat T)
    (excel_file : List (ResultRow T)) (detector descriptor : String) :
    Option (List (ResultRow T)) :=
  processImagesOnWith read env 0 9 excel_file detector descriptor

/-- The body of the image loop with every read of a k-NN row bound-checked. -/
def processImage {Img Mat T : Type} (env : Env Img Mat T)
    (detector descriptor : String) (imgStartIndex : Nat)
    (st : RunState Img Mat T) (imgIndex : Nat) : Option (RunState Img Mat T) :=
  processImageWith checkedRead env detector descriptor imgStartIndex st imgIndex

/-- The run over the image file numbers `imgStartIndex` to `imgEndIndex` with
every read of a k-NN row bound-checked: `none` when the ratio-test loop reads
outside a row. -/
def processImagesOn {Img Mat T : Type} (env : Env Img Mat T)
    (imgStartIndex imgEndIndex : Nat) (excel_file : List (ResultRow T))
    (detector descriptor : String) : Option (List (ResultRow T)) :=
  processImagesOnWith checkedRead env imgStartIndex imgEndIndex excel_file
    detector descriptor

/-- The run over the image file numbers 0 to 9 with every read of a k-NN row
bound-checked. -/
def processImages {Img Mat T : Type} (env : Env Img Mat T)
    (excel_file : List (ResultRow T)) (detector descriptor : String) :
    Option (List (ResultRow T)) :=
  processImagesOn env 0 9 excel_file detector descriptor

/-- The number of keypoints the ROI filter leaves of those detected in the
image with file number `n`: the keypoint count of the row written for it. -/
def roiKeypointCount {Img Mat T : Type} (env : Env Img Mat T)
    (detector : String) (n : Nat) : Nat :=
  match detectKeypoints env detector (env.imread n) with
  | none => 0
  | some (detected, _) => (detected.filter vehicleRect.contains).length

/-- The detection time reported for the image with file number `n`. -/
def detTimeOf {Img Mat T : Type} (env : Env Img Mat T)
    (detector : String) (n : Nat) : T :=
  env.detTime detector (env.imread n)

/-- The row written for the image with file number `imgStartIndex + i + 1`,
the `i`-th frame transition of a run, with match count `m`. -/
def resultRowAt {Img Mat T : Type} (env : Env Img Mat T)
    (detector descriptor : String) (imgStartIndex i m : Nat) : ResultRow T :=
  ⟨detector, roiKeypointCount env detector (imgStartIndex + i + 1),
    detTimeOf env detector (imgStartIndex + i + 1), descriptor,
    env.descTime descriptor (env.imread (imgStartIndex + i + 1)), m⟩

/-- A small environment for evaluating a run: images are their file numbers,
Shi-Tomasi finds the corners `corners n` in image `n`, the other detectors
find nothing, an extractor keeps the keypoints and returns their number as
the descriptor matrix, and the search capability returns `knn a b` for the
matrices `a` and `b`. -/
def demoEnv (corners : Nat → List (ℚ × ℚ))
    (knn : Nat → Nat → List (List DMatch)) : Env Nat Nat Nat :=
  { search := ⟨fun m => m, fun _ _ _ => [], fun _ a b _ => knn a b⟩
    emptyMat := 0
    imread := fun n => n
    goodFeaturesToTrack := corners
    normConv := fun _ => []
    overlap := discOverlap
    detect := fun _ _ => []
    compute := fun _ _ keypoints => (keypoints, keypoints.length)
    detTime := fun _ n => n
    descTime := fun _ n => n }

/-- Corners of a two-image sequence: three inside the vehicle rectangle (and
one outside) in image 0, two inside in image 1. -/
def demoCorners (n : Nat) : List (ℚ × ℚ) :=
  if n = 0 then [(600, 200), (10, 10), (610, 210), (620, 220)]
  else [(600, 200), (610, 210)]

/-- A brute-force-like k-NN result over `a` source rows and `b` reference
rows: no rows when there is no reference row, and otherwise one row per source
row with its `min 2 b` candidates, reference row 0 at distance 1 and reference
row 1 at distance 10. -/
def demoKnn (a b : Nat) : List (List DMatch) :=
  if b = 0 then []
  else (List.range a).map (fun q => ([⟨q, 0, 1⟩, ⟨q, 1, 10⟩] : List DMatch).take b)

/-- Corners of a two-image sequence in which the ROI filter leaves two
keypoints in image 0 and a single keypoint in image 1. -/
def sparseCorners (n : Nat) : List (ℚ × ℚ) :=
  if n = 0 then [(600, 200), (610, 210)] else [(600, 200), (10, 10)]

/-- A search capability that answers only a brute-force Hamming matcher with
a row, and any other matcher with no rows. -/
def hammingProbe : MatchEnv Unit :=
  ⟨fun m => m, fun _ _ _ => [],
    fun m _ _ _ =>
      match m with
      | Matcher.BFMatcher NormType.NORM_HAMMING _ => [[⟨0, 0, 1⟩, ⟨0, 1, 10⟩]]
      | _ => []⟩

/-! ## Harris detector: the scanned candidates -/

/-- The candidates the scan of row `i` meets from column `j` on, in scan
order: one keypoint per pixel whose value exceeds `threshold`, positioned at
the pixel, of size `2 * apertureSize`, with the pixel value as response. -/
def rowCandidates (i : Nat) : List Nat → Nat → List KeyPoint
  | [], _ => []
  | v :: rest, j =>
    (if v > threshold then [(⟨j, i, 2 * apertureSize, v⟩ : KeyPoint)] else []) ++
      rowCandidates i rest (j + 1)

/-- The candidates the scan of the rows meets from row `i` on, in scan order. -/
def imageCandidates : List (List Nat) → Nat → List KeyPoint
  | [], _ => []
  | row :: rest, i => rowCandidates i row 0 ++ imageCandidates rest (i + 1)

/-- A response map of 12 rows and 17 columns with three pixels above the
threshold: 150 at column 10 and 120 at column 16 of row 10, and 200 at column
13 of row 11. -/
def abcImage : List (List Nat) :=
  List.replicate 10 (List.replicate 17 0) ++
    [List.replicate 10 0 ++ [150] ++ List.replicate 5 0 ++ [120],
     List.replicate 13 0 ++ [200] ++ List.replicate 3 0]

/-- The candidate `A = (10,10)` of `abcImage`. -/
def kpA : KeyPoint := ⟨10, 10, 6, 150⟩

/-- The candidate `B = (16,10)` of `abcImage`. -/
def kpB : KeyPoint := ⟨16, 10, 6, 120⟩

/-- The candidate `C = (13,11)` of `abcImage`. -/
def kpC : KeyPoint := ⟨13, 11, 6, 200⟩

/-! ## Frame buffer: theorems -/

theorem pushAll_append_singleton {α : Type} (cap : Nat) (frames : List α) (f : α) :
    pushAll cap (frames ++ [f]) = pushFrame cap (pushAll cap frames) f := by
  simp [pushAll, List.foldl_append]

theorem pushAll_two {α : Type} (frames : List α) :
    pushAll 2 frames = frames.drop (frames.length - 2) := by
  induction frames using List.reverseRecOn with
  | nil => rfl
  | append_singleton l a ih =>
    rw [pushAll_append_singleton, ih]
    rcases Nat.lt_or_ge l.length 2 with h | h
    · have h0 : l.length - 2 = 0 := by omega
      have h1 : (l ++ [a]).length - 2 = 0 := by simp; omega
      rw [h0, h1]
      simp [pushFrame, evictIfFull]
      omega
    · have h1 : (l ++ [a]).length - 2 = (l.length - 2) + 1 := by simp; omega
      rw [h1]
      have hlen : (List.drop (l.length - 2) l).length = 2 := by simp; omega
      simp only [pushFrame, evictIfFull, hlen, ge_iff_le, le_refl, if_true]
      rw [List.eraseIdx_zero, List.tail_drop]
      rw [List.drop_append_of_le_length (by omega)]

/-- C1: after every push of a sequence of pushes into an empty buffer of
capacity `dataBufferSize = 2`, the buffer holds `min n 2` frames, never more
than the capacity, namely the most recently pushed `min n 2` frames in push
order; each push erases the oldest frame first when the buffer is full, so the
buffer is below capacity when the new frame is appended. -/
theorem frame_buffer_invariant {α : Type} (frames : List α) (k : Nat) :
    (pushAll dataBufferSize (frames.take k)).length = min (frames.take k).length 2 ∧
    (pushAll dataBufferSize (frames.take k)).length ≤ dataBufferSize ∧
    pushAll dataBufferSize (frames.take k) =
      (frames.take k).drop ((frames.take k).length - min (frames.take k).length 2) ∧
    (∀ f : α,
      pushAll dataBufferSize (frames.take k ++ [f]) =
        evictIfFull dataBufferSize (pushAll dataBufferSize (frames.take k)) ++ [f] ∧
      (evictIfFull dataBufferSize (pushAll dataBufferSize (frames.take k))).length
        < dataBufferSize) := by
  generalize frames.take k = pre
  have hbuf : pushAll dataBufferSize pre = pre.drop (pre.length - 2) := pushAll_two pre
  have hlen : (pushAll dataBufferSize pre).length = min pre.length 2 := by
    rw [hbuf, List.length_drop]; omega
  refine ⟨hlen, ?_, ?_, ?_⟩
  · rw [hlen]; exact Nat.min_le_right _ _
  · rw [hbuf]; congr 1; omega
  · intro f
    refine ⟨?_, ?_⟩
    · rw [pushAll_append_singleton]; rfl
    · unfold evictIfFull
      split
      · rw [List.eraseIdx_zero, List.length_tail, hlen]
        simp [dataBufferSize]; omega
      · omega

/-! ## Sweep harness: theorems -/

theorem sweep_inner_eq {σ : Type} (f : σ → String → String → σ) (det : String)
    (dess : List String) (s : SweepState σ) :
    dess.foldl (fun s des => sweepStep f s det des) s =
      (dess.map (fun des => (det, des))).foldl (fun s p => sweepStep f s p.1 p.2) s := by
  induction dess generalizing s with
  | nil => rfl
  | cons d ds ih => simp only [List.foldl_cons, List.map_cons]; exact ih _

theorem sweep_eq_foldl_allPairs {σ : Type} (f : σ → String → String → σ)
    (dets dess : List String) (s : SweepState σ) :
    sweep f dets dess s =
      (allPairs dets dess).foldl (fun s p => sweepStep f s p.1 p.2) s := by
  unfold sweep
  induction dets generalizing s with
  | nil => rfl
  | cons d ds ih =>
    simp only [List.foldl_cons, allPairs, List.foldr_cons, List.foldl_append]
    rw [sweep_inner_eq]
    exact ih _

theorem foldl_sweepStep {σ : Type} (f : σ → String → String → σ)
    (ps : List (String × String)) (s : SweepState σ) :
    ps.foldl (fun s p => sweepStep f s p.1 p.2) s =
      ⟨(ps.filter (fun p => !invalidCombination p.1 p.2)).foldl
          (fun e p => f e p.1 p.2) s.excel_file,
        s.skipped ++ ps.filter (fun p => invalidCombination p.1 p.2)⟩ := by
  induction ps generalizing s with
  | nil => simp
  | cons p ps ih =>
    rw [List.foldl_cons, ih]
    by_cases h : invalidCombination p.1 p.2 = true
    · simp [sweepStep, h, List.filter_cons]
    · simp [sweepStep, h, List.filter_cons]

/-- C3: whatever the pipeline does, the sweep of `main` invokes it exactly on
the pairs that are not `(detector != AKAZE and descriptor == AKAZE)` or
`(detector == SIFT and descriptor == ORB)`, in visiting order (detectors
outer, descriptors inner), and only logs the others; of the 42 pairs of the
fixed lists 35 are run and 7 are skipped, and a call-recording pipeline sees a
pair iff it is not rejected. -/
theorem sweep_incompatibility_rule :
    (∀ (σ : Type) (processImages : σ → String → String → σ) (excel_file : σ),
      (main processImages excel_file).excel_file =
        acceptedPairs.foldl (fun e p => processImages e p.1 p.2) excel_file ∧
      (main processImages excel_file).skipped = rejectedPairs) ∧
    (main spy []).excel_file = acceptedPairs ∧
    (∀ det ∈ detectors, ∀ des ∈ descriptors,
      ((det, des) ∈ (main spy []).excel_file ↔
        ¬ ((det ≠ "AKAZE" ∧ des = "AKAZE") ∨ (det = "SIFT" ∧ des = "ORB")))) ∧
    (allPairs detectors descriptors).length = 42 ∧
    acceptedPairs.length = 35 ∧
    rejectedPairs.length = 7 := by
  have hmain : ∀ (σ : Type) (processImages : σ → String → String → σ) (excel_file : σ),
      (main processImages excel_file).excel_file =
        acceptedPairs.foldl (fun e p => processImages e p.1 p.2) excel_file ∧
      (main processImages excel_file).skipped = rejectedPairs := by
    intro σ f e
    unfold main
    rw [sweep_eq_foldl_allPairs, foldl_sweepStep]
    exact ⟨rfl, by simp [rejectedPairs]⟩
  have hspy : (main spy []).excel_file = acceptedPairs := by
    rw [(hmain _ spy []).1]
    decide
  refine ⟨hmain, hspy, ?_, by decide, by decide, by decide⟩
  rw [hspy]
  decide

/-! ## ROI filter: theorems -/

theorem roiLoop_eq (rect : Rect) (fuel : Nat) (keypoints : List KeyPoint) (it : Nat)
    (hit : it ≤ keypoints.length) (hfuel : keypoints.length - it < fuel) :
    roiLoop rect fuel keypoints it =
      some (keypoints.take it ++ (keypoints.drop it).filter rect.contains) := by
  induction fuel generalizing keypoints it with
  | zero => omega
  | succ fuel ih =>
    unfold roiLoop
    by_cases hend : it = keypoints.length
    · simp [hend]
    · have hlt : it < keypoints.length := by omega
      have hget : keypoints[it]? = some keypoints[it] := List.getElem?_eq_getElem hlt
      have hdrop : keypoints.drop it = keypoints[it] :: keypoints.drop (it + 1) :=
        List.drop_eq_getElem_cons hlt
      simp only [hend, if_false, hget]
      have htake : keypoints.take (it + 1) = keypoints.take it ++ [keypoints[it]] := by
        rw [List.take_succ, hget]; rfl
      cases hc : rect.contains keypoints[it] with
      | true =>
        simp only [Bool.not_true, Bool.false_eq_true, if_false]
        rw [ih keypoints (it + 1) (by omega) (by omega), hdrop,
          List.filter_cons_of_pos hc, htake, List.append_assoc]
        rfl
      | false =>
        simp only [Bool.not_false, if_true]
        have hlen : (keypoints.eraseIdx it).length = keypoints.length - 1 :=
          List.length_eraseIdx_of_lt hlt
        have hlt2 : (List.take it keypoints).length = it := by
          rw [List.length_take]; omega
        have h1 : (keypoints.eraseIdx it).take it = keypoints.take it := by
          rw [List.eraseIdx_eq_take_drop_succ,
            List.take_append_of_le_length (by omega), List.take_take]
          simp
        have h2 : (keypoints.eraseIdx it).drop it = keypoints.drop (it + 1) := by
          rw [List.eraseIdx_eq_take_drop_succ,
            List.drop_append_of_le_length (by omega), List.drop_of_length_le (by omega)]
          simp
        rw [ih (keypoints.eraseIdx it) it (by omega) (by omega), hdrop,
          List.filter_cons_of_neg (by simp [hc]), h1, h2]

theorem focusOnVehicle_eq (keypoints : List KeyPoint) :
    focusOnVehicle keypoints = some (keypoints.filter vehicleRect.contains) := by
  unfold focusOnVehicle
  rw [roiLoop_eq vehicleRect _ keypoints 0 (by omega) (by omega)]
  simp

theorem getElem?_append_length_cons {α : Type} (pre rest : List α) (a : α) :
    (pre ++ a :: rest)[pre.length]? = some a := by
  rw [List.getElem?_append_right (Nat.le_refl _), Nat.sub_self]
  exact List.getElem?_cons_zero

theorem checkedRead_inBounds (row : List DMatch) (k : Nat) (m : DMatch)
    (h : row[k]? = some m) : checkedRead row k = some m := h

theorem uncheckedRead_inBounds (oob : List DMatch → Nat → DMatch) (row : List DMatch)
    (k : Nat) (m : DMatch) (h : row[k]? = some m) : uncheckedRead oob row k = some m := by
  simp [uncheckedRead, h]

theorem ratioLoopWith_rows (read : List DMatch → Nat → Option DMatch)
    (hread : ∀ row k m, row[k]? = some m → read row k = some m)
    (rows : List (DMatch × DMatch × List DMatch))
    (pre : List (List DMatch)) (matches_ : List DMatch) :
    ratioLoopWith read (pre ++ rows.map knnRow) rows.length pre.length matches_ =
      some (matches_ ++ (rows.filter ratioAccepts).map (fun r => r.1)) := by
  induction rows generalizing pre matches_ with
  | nil => simp [ratioLoopWith]
  | cons r rows ih =>
    have hget : (pre ++ (r :: rows).map knnRow)[pre.length]? = some (knnRow r) := by
      rw [List.map_cons]; exact getElem?_append_length_cons _ _ _
    have hnext : pre ++ (r :: rows).map knnRow = (pre ++ [knnRow r]) ++ rows.map knnRow := by
      simp
    have hlen : pre.length + 1 = (pre ++ [knnRow r]).length := by simp
    rw [List.length_cons, ratioLoopWith, hget]
    have h0 : read (knnRow r) 0 = some r.1 := hread _ _ _ (by simp [knnRow])
    have h1 : read (knnRow r) 1 = some r.2.1 := hread _ _ _ (by simp [knnRow])
    simp only [h0, h1]
    rw [hnext, hlen]
    cases hacc : ratioAccepts r with
    | true =>
      have hlt : r.1.distance < mulF32 distanceThresh r.2.1.distance := by
        simpa [ratioAccepts] using hacc
      simp only [hlt, if_true]
      rw [ih, List.filter_cons_of_pos hacc]
      simp
    | false =>
      have hlt : ¬ r.1.distance < mulF32 distanceThresh r.2.1.distance := by
        simpa [ratioAccepts] using hacc
      simp only [hlt, if_false]
      rw [ih, List.filter_cons_of_neg (by simp [hacc])]

theorem ratioFilterWith_rows (read : List DMatch → Nat → Option DMatch)
    (hread : ∀ row k m, row[k]? = some m → read row k = some m)
    (rows : List (DMatch × DMatch × List DMatch)) (matches_ : List DMatch) :
    ratioFilterWith read (rows.map knnRow) matches_ =
      some (matches_ ++ (rows.filter ratioAccepts).map (fun r => r.1)) := by
  have h := ratioLoopWith_rows read hread rows [] matches_
  simpa [ratioFilterWith] using h

theorem ratioFilter_rows (rows : List (DMatch × DMatch × List DMatch))
    (matches_ : List DMatch) :
    ratioFilter (rows.map knnRow) matches_ =
      some (matches_ ++ (rows.filter ratioAccepts).map (fun r => r.1)) :=
  ratioFilterWith_rows checkedRead checkedRead_inBounds rows matches_

theorem matchDescriptorsWith_bf_knn {Mat : Type} (read : List DMatch → Nat → Option DMatch)
    (env : MatchEnv Mat)
    (kPtsSource kPtsRef : List KeyPoint) (descSource descRef : Mat)
    (matches_ : List DMatch) (descriptorType : String) :
    matchDescriptorsWith read env kPtsSource kPtsRef descSource descRef matches_
        descriptorType "MAT_BF" "SEL_KNN" =
      (ratioFilterWith read
        (env.knnMatch (Matcher.BFMatcher (bfNormType descriptorType) false)
          descSource descRef 2) matches_).map
        (fun out => ⟨out, descSource, descRef⟩) := by
  simp only [matchDescriptorsWith, if_true]
  have hsel : ¬ ("SEL_KNN" = "SEL_NN") := by decide
  simp only [hsel, if_false]
  cases ratioFilterWith read
    (env.knnMatch (Matcher.BFMatcher (bfNormType descriptorType) false) descSource descRef 2)
    matches_ <;> rfl

theorem matchDescriptors_bf_knn {Mat : Type} (env : MatchEnv Mat)
    (kPtsSource kPtsRef : List KeyPoint) (descSource descRef : Mat)
    (matches_ : List DMatch) (descriptorType : String) :
    matchDescriptors env kPtsSource kPtsRef descSource descRef matches_
        descriptorType "MAT_BF" "SEL_KNN" =
      (ratioFilter
        (env.knnMatch (Matcher.BFMatcher (bfNormType descriptorType) false)
          descSource descRef 2) matches_).map
        (fun out => ⟨out, descSource, descRef⟩) :=
  matchDescriptorsWith_bf_knn checkedRead env kPtsSource kPtsRef descSource descRef
    matches_ descriptorType

/-- C2 (as stated, refuted): for the binary32 distances `d1 = 11744051 / 2^21`
(about 5.5999999) and `d2 = 7`, with `d1 <= d2` and `d1 < 0.8 * d2 = 5.6`, the
row is not in the output: the product `distanceThresh * d2` is rounded to
binary32 and equals `d1`. -/
theorem ratio_test_rounds_product :
    roundF32 (11744051 / 2097152) = 11744051 / 2097152 ∧
    roundF32 7 = 7 ∧
    (11744051 / 2097152 : ℚ) ≤ 7 ∧
    (11744051 / 2097152 : ℚ) < 4 / 5 * 7 ∧
    mulF32 distanceThresh 7 = 11744051 / 2097152 ∧
    (matchDescriptors (constSearch [[⟨0, 0, 11744051 / 2097152⟩, ⟨0, 1, 7⟩]])
        [] [] () () [] "DES_BINARY" "MAT_BF" "SEL_KNN").map (fun r => r.matches_) =
      some [] := by
  decide!

/-- C2 (amended): in `SEL_KNN` mode with the brute-force matcher, when the
k-NN result gives every source row a closest match (distance `d1`) and a
second-closest match (distance `d2`), the output is exactly the closest
matches of the rows with `d1` below the binary32 product of the stored
threshold `0.8f = 13421773 / 2^24` and `d2`, in source-row order, appended to
`matches`: a row contributes its closest match when the test holds and
nothing otherwise, so at most one match per row; whether the reads of the
rows are bound-checked or not makes no difference. -/
theorem ratio_test_knn {Mat : Type} (env : MatchEnv Mat)
    (kPtsSource kPtsRef : List KeyPoint) (descSource descRef : Mat)
    (matches_ : List DMatch) (descriptorType : String)
    (rows : List (DMatch × DMatch × List DMatch))
    (hknn : env.knnMatch (Matcher.BFMatcher (bfNormType descriptorType) false)
      descSource descRef 2 = rows.map knnRow) :
    matchDescriptors env kPtsSource kPtsRef descSource descRef matches_
        descriptorType "MAT_BF" "SEL_KNN" =
      some ⟨matches_ ++ (rows.filter (fun r =>
          decide (r.1.distance < roundF32 (13421773 / 16777216 * r.2.1.distance)))).map
            (fun r => r.1),
        descSource, descRef⟩ ∧
    (∀ oob, matchDescriptorsWith (uncheckedRead oob) env kPtsSource kPtsRef descSource descRef
        matches_ descriptorType "MAT_BF" "SEL_KNN" =
      some ⟨matches_ ++ (rows.filter (fun r =>
          decide (r.1.distance < roundF32 (13421773 / 16777216 * r.2.1.distance)))).map
            (fun r => r.1),
        descSource, descRef⟩) ∧
    ((rows.filter (fun r =>
        decide (r.1.distance < roundF32 (13421773 / 16777216 * r.2.1.distance)))).map
          (fun r => r.1)).length ≤ rows.length ∧
    ((rows.map (fun r => r.1)).Nodup → ∀ r ∈ rows,
      (r.1 ∈ (rows.filter (fun r =>
          decide (r.1.distance < roundF32 (13421773 / 16777216 * r.2.1.distance)))).map
            (fun r => r.1) ↔
        r.1.distance < roundF32 (13421773 / 16777216 * r.2.1.distance))) ∧
    roundF32 (4 / 5) = 13421773 / 16777216 := by
  refine ⟨?_, ?_, ?_, ?_, by decide!⟩
  · rw [matchDescriptors_bf_knn, hknn, ratioFilter_rows]
    rfl
  · intro oob
    rw [matchDescriptorsWith_bf_knn, hknn,
      ratioFilterWith_rows _ (uncheckedRead_inBounds oob)]
    rfl
  · rw [List.length_map]
    exact List.length_filter_le _ _
  · intro hnd r hr
    constructor
    · intro hmem
      obtain ⟨r2, hr2, heq⟩ := List.mem_map.mp hmem
      have hr2mem := (List.mem_filter.mp hr2)
      have : r2 = r := List.inj_on_of_nodup_map hnd hr2mem.1 hr heq
      rw [← this]
      simpa using hr2mem.2
    · intro hacc
      exact List.mem_map.mpr ⟨r, List.mem_filter.mpr ⟨hr, by simpa using hacc⟩, rfl⟩

theorem ratio_test_knn_witness :
    roundF32 (79 / 100) = 13254001 / 16777216 ∧
    roundF32 (81 / 100) = 13589545 / 16777216 ∧
    (constSearch
        [[⟨0, 0, 13254001 / 16777216⟩, ⟨0, 1, 1⟩],
         [⟨1, 0, 13589545 / 16777216⟩, ⟨1, 1, 1⟩]]).knnMatch
      (Matcher.BFMatcher (bfNormType "DES_BINARY") false) () () 2 =
      [((⟨0, 0, 13254001 / 16777216⟩ : DMatch), (⟨0, 1, 1⟩ : DMatch), ([] : List DMatch)),
        (⟨1, 0, 13589545 / 16777216⟩, ⟨1, 1, 1⟩, [])].map knnRow ∧
    (matchDescriptors
        (constSearch
          [[⟨0, 0, 13254001 / 16777216⟩, ⟨0, 1, 1⟩],
           [⟨1, 0, 13589545 / 16777216⟩, ⟨1, 1, 1⟩]])
        [] [] () () [] "DES_BINARY" "MAT_BF" "SEL_KNN").map (fun r => r.matches_) =
      some [⟨0, 0, 13254001 / 16777216⟩] := by
  refine ⟨by decide!, by decide!, rfl, ?_⟩
  rw [(ratio_test_knn
    (constSearch
      [[⟨0, 0, 13254001 / 16777216⟩, ⟨0, 1, 1⟩], [⟨1, 0, 13589545 / 16777216⟩, ⟨1, 1, 1⟩]])
    [] [] () () [] "DES_BINARY"
    [(⟨0, 0, 13254001 / 16777216⟩, ⟨0, 1, 1⟩, []), (⟨1, 0, 13589545 / 16777216⟩, ⟨1, 1, 1⟩, [])]
    rfl).1]
  decide!

/-! ## Harris overlap suppression: theorems -/

theorem overlapScan_no_overlap (overlap : KeyPoint → KeyPoint → ℚ) (c : KeyPoint)
    (pre : List KeyPoint) (hpre : ∀ x ∈ pre, ¬ overlap x c > 0) :
    overlapScan overlap c pre = (pre, false) := by
  induction pre with
  | nil => rfl
  | cons x xs ih =>
    have hx : ¬ overlap x c > maxOverlap := hpre x (List.mem_cons_self _ _)
    have hxs := ih (fun y hy => hpre y (List.mem_cons_of_mem _ hy))
    simp only [overlapScan, hx, if_false, hxs]

theorem overlapScan_first_overlap (overlap : KeyPoint → KeyPoint → ℚ) (c e : KeyPoint)
    (pre post : List KeyPoint) (hpre : ∀ x ∈ pre, ¬ overlap x c > 0)
    (he : overlap e c > 0) :
    overlapScan overlap c (pre ++ e :: post) =
      (pre ++ (if e.response < c.response then c else e) :: post, true) := by
  induction pre with
  | nil =>
    have he2 : overlap e c > maxOverlap := he
    simp only [List.nil_append, overlapScan, he2, if_true]
  | cons x xs ih =>
    have hx : ¬ overlap x c > maxOverlap := hpre x (List.mem_cons_self _ _)
    have hxs := ih (fun y hy => hpre y (List.mem_cons_of_mem _ hy))
    rw [List.cons_append, overlapScan]
    simp only [hx, if_false, hxs]
    rfl

/-- C5: first-overlap-wins.  When `e` is the first accepted keypoint, in
insertion order, whose overlap with the candidate `c` exceeds 0, inserting `c`
replaces `e` by `c` if `c` has the higher response and changes nothing
otherwise; the keypoints after `e` are left as they are whatever their overlap
or response.  When no accepted keypoint overlaps `c`, it is appended. -/
theorem harris_first_overlap_wins (overlap : KeyPoint → KeyPoint → ℚ) (c e : KeyPoint)
    (pre post : List KeyPoint) (hpre : ∀ x ∈ pre, ¬ overlap x c > 0)
    (he : overlap e c > 0) :
    insertCandidate overlap (pre ++ e :: post) c =
      (if c.response > e.response then pre ++ c :: post else pre ++ e :: post) ∧
    insertCandidate overlap pre c = pre ++ [c] := by
  constructor
  · unfold insertCandidate
    rw [overlapScan_first_overlap overlap c e pre post hpre he]
    by_cases h : e.response < c.response
    · simp [h]
    · simp [h]
  · unfold insertCandidate
    rw [overlapScan_no_overlap overlap c pre hpre]
    rfl

theorem harris_first_overlap_wins_witness :
    (∀ x ∈ [(⟨40, 40, 6, 110⟩ : KeyPoint)],
      ¬ discOverlap x ⟨13, 11, 6, 200⟩ > 0) ∧
    discOverlap ⟨10, 10, 6, 150⟩ ⟨13, 11, 6, 200⟩ > 0 ∧
    discOverlap ⟨16, 10, 6, 250⟩ ⟨13, 11, 6, 200⟩ > 0 ∧
    insertCandidate discOverlap
        [⟨40, 40, 6, 110⟩, ⟨10, 10, 6, 150⟩, ⟨16, 10, 6, 250⟩] ⟨13, 11, 6, 200⟩ =
      [⟨40, 40, 6, 110⟩, ⟨13, 11, 6, 200⟩, ⟨16, 10, 6, 250⟩] := by
  have hpre : ∀ x ∈ [(⟨40, 40, 6, 110⟩ : KeyPoint)],
      ¬ discOverlap x ⟨13, 11, 6, 200⟩ > 0 := by
    intro x hx
    rw [List.mem_singleton] at hx
    subst hx
    norm_num [discOverlap]
  have he : discOverlap ⟨10, 10, 6, 150⟩ ⟨13, 11, 6, 200⟩ > 0 := by
    norm_num [discOverlap]
  refine ⟨hpre, he, by norm_num [discOverlap], ?_⟩
  have h := (harris_first_overlap_wins discOverlap ⟨13, 11, 6, 200⟩ ⟨10, 10, 6, 150⟩
    [⟨40, 40, 6, 110⟩] [⟨16, 10, 6, 250⟩] hpre he).1
  simpa using h

/-! ## Ratio-test loop: index safety -/

theorem ratioLoop_isSome_iff (suffix pre : List (List DMatch)) (matches_ : List DMatch) :
    (ratioLoop (pre ++ suffix) suffix.length pre.length matches_).isSome = true ↔
      ∀ row ∈ suffix, 2 ≤ row.length := by
  unfold ratioLoop
  induction suffix generalizing pre matches_ with
  | nil => simp [ratioLoopWith]
  | cons row rest ih =>
    have hget : (pre ++ row :: rest)[pre.length]? = some row :=
      getElem?_append_length_cons _ _ _
    have hnext : pre ++ row :: rest = (pre ++ [row]) ++ rest := by simp
    have hlen : pre.length + 1 = (pre ++ [row]).length := by simp
    rw [List.length_cons, ratioLoopWith, hget]
    match row with
    | [] => simp [checkedRead]
    | [m0] => simp [checkedRead]
    | m0 :: m1 :: more =>
      have h0 : checkedRead (m0 :: m1 :: more) 0 = some m0 := by simp [checkedRead]
      have h1 : checkedRead (m0 :: m1 :: more) 1 = some m1 := by simp [checkedRead]
      simp only [h0, h1]
      rw [hnext, hlen]
      have hrow : 2 ≤ (m0 :: m1 :: more).length := by simp
      by_cases hacc : m0.distance < mulF32 distanceThresh m1.distance
      · simp only [hacc, if_true]
        rw [ih]
        simp
      · simp only [hacc, if_false]
        rw [ih]
        simp

theorem ratioFilter_isSome_iff (matches_vect : List (List DMatch)) (matches_ : List DMatch) :
    (ratioFilter matches_vect matches_).isSome = true ↔
      ∀ row ∈ matches_vect, 2 ≤ row.length := by
  have h := ratioLoop_isSome_iff matches_vect [] matches_
  simpa [ratioFilter, ratioFilterWith, ratioLoop] using h

theorem ratioFilter_length_le (matches_vect : List (List DMatch))
    (matches_ out : List DMatch)
    (h : ratioFilter matches_vect matches_ = some out) :
    out.length ≤ matches_.length + matches_vect.length := by
  have hall : ∀ row ∈ matches_vect, 2 ≤ row.length := by
    rw [← ratioFilter_isSome_iff matches_vect matches_, h]; rfl
  have hrows : ∃ rows : List (DMatch × DMatch × List DMatch),
      matches_vect = rows.map knnRow := by
    clear h
    induction matches_vect with
    | nil => exact ⟨[], rfl⟩
    | cons row rest ih =>
      obtain ⟨rows, hrows⟩ := ih (fun r hr => hall r (List.mem_cons_of_mem _ hr))
      have h2 := hall row (List.mem_cons_self _ _)
      match row, h2 with
      | m0 :: m1 :: more, _ => exact ⟨(m0, m1, more) :: rows, by rw [hrows]; rfl⟩
  obtain ⟨rows, hrows⟩ := hrows
  rw [hrows, ratioFilter_rows] at h
  cases h
  rw [List.length_append, List.length_map, hrows, List.length_map]
  exact Nat.add_le_add_left (List.length_filter_le _ _) _

theorem ratioLoopWith_unchecked_some (oob : List DMatch → Nat → DMatch)
    (matches_vect : List (List DMatch)) (n i : Nat) (matches_ : List DMatch)
    (hin : i + n ≤ matches_vect.length) :
    ∃ out, ratioLoopWith (uncheckedRead oob) matches_vect n i matches_ = some out := by
  induction n generalizing i matches_ with
  | zero => exact ⟨matches_, rfl⟩
  | succ n ih =>
    have hlt : i < matches_vect.length := by omega
    have hget : matches_vect[i]? = some matches_vect[i] := List.getElem?_eq_getElem hlt
    rw [ratioLoopWith, hget]
    simp only [uncheckedRead]
    split
    · exact ih (i + 1) _ (by omega)
    · exact ih (i + 1) _ (by omega)

theorem ratioLoopWith_checked_unchecked (oob : List DMatch → Nat → DMatch)
    (matches_vect : List (List DMatch)) (n i : Nat) (matches_ out : List DMatch)
    (h : ratioLoopWith checkedRead matches_vect n i matches_ = some out) :
    ratioLoopWith (uncheckedRead oob) matches_vect n i matches_ = some out := by
  induction n generalizing i matches_ with
  | zero => exact h
  | succ n ih =>
    rw [ratioLoopWith] at h ⊢
    cases hrow : matches_vect[i]? with
    | none => rw [hrow] at h; cases h
    | some row =>
      rw [hrow] at h
      simp only at h ⊢
      cases h0 : checkedRead row 0 with
      | none => rw [h0] at h; cases h
      | some m0 =>
        cases h1 : checkedRead row 1 with
        | none => rw [h0, h1] at h; cases h
        | some m1 =>
          rw [h0, h1] at h
          rw [uncheckedRead_inBounds oob row 0 m0 h0, uncheckedRead_inBounds oob row 1 m1 h1]
          simp only at h ⊢
          split
          · rename_i hlt
            rw [if_pos hlt] at h
            exact ih _ _ h
          · rename_i hlt
            rw [if_neg hlt] at h
            exact ih _ _ h

theorem matchDescriptorsWith_unchecked_some {Mat : Type} (oob : List DMatch → Nat → DMatch)
    (env : MatchEnv Mat)
    (kPtsSource kPtsRef : List KeyPoint) (descSource descRef : Mat)
    (matches_ : List DMatch) (descriptorType : String) :
    ∃ out, matchDescriptorsWith (uncheckedRead oob) env kPtsSource kPtsRef descSource descRef
      matches_ descriptorType "MAT_BF" "SEL_KNN" = some ⟨out, descSource, descRef⟩ := by
  rw [matchDescriptorsWith_bf_knn]
  obtain ⟨out, hout⟩ := ratioLoopWith_unchecked_some oob
    (env.knnMatch (Matcher.BFMatcher (bfNormType descriptorType) false) descSource descRef 2)
    (env.knnMatch (Matcher.BFMatcher (bfNormType descriptorType) false) descSource
      descRef 2).length 0 matches_ (by omega)
  refine ⟨out, ?_⟩
  unfold ratioFilterWith
  rw [hout]
  rfl

theorem matchDescriptors_checked_unchecked {Mat : Type} (oob : List DMatch → Nat → DMatch)
    (env : MatchEnv Mat)
    (kPtsSource kPtsRef : List KeyPoint) (descSource descRef : Mat)
    (descriptorType : String) (r : MatchResult Mat)
    (h : matchDescriptorsWith checkedRead env kPtsSource kPtsRef descSource descRef
      [] descriptorType "MAT_BF" "SEL_KNN" = some r) :
    matchDescriptorsWith (uncheckedRead oob) env kPtsSource kPtsRef descSource descRef
      [] descriptorType "MAT_BF" "SEL_KNN" = some r := by
  rw [matchDescriptorsWith_bf_knn] at h ⊢
  unfold ratioFilterWith at h ⊢
  cases hc : ratioLoopWith checkedRead
      (env.knnMatch (Matcher.BFMatcher (bfNormType descriptorType) false) descSource descRef 2)
      (env.knnMatch (Matcher.BFMatcher (bfNormType descriptorType) false) descSource
        descRef 2).length 0 [] with
  | none => rw [hc] at h; cases h
  | some out =>
    rw [hc] at h
    rw [ratioLoopWith_checked_unchecked oob _ _ _ _ _ hc]
    exact h

/-! ## Pipeline: theorems -/

theorem detectKeypoints_known {Img Mat T : Type} (env : Env Img Mat T)
    (detector : String) (img : Img) (h : detector ∈ detectors) :
    ∃ detected, detectKeypoints env detector img = some (detected, env.detTime detector img) := by
  simp only [detectors, List.mem_cons, List.mem_singleton, List.not_mem_nil, or_false] at h
  rcases h with rfl | rfl | rfl | rfl | rfl | rfl | rfl
  · exact ⟨_, rfl⟩
  · exact ⟨_, rfl⟩
  · exact ⟨_, rfl⟩
  · exact ⟨_, rfl⟩
  · exact ⟨_, rfl⟩
  · exact ⟨_, rfl⟩
  · exact ⟨_, rfl⟩

theorem descKeypoints_known {Img Mat T : Type} (env : Env Img Mat T)
    (keypoints : List KeyPoint) (img : Img) (descriptor : String)
    (h : descriptor ∈ descriptors) :
    descKeypoints env keypoints img descriptor =
      some ((env.compute descriptor img keypoints).1,
        (env.compute descriptor img keypoints).2, env.descTime descriptor img) := by
  have h2 : descriptor ∈ knownDescriptors := h
  simp only [descKeypoints, h2, if_true]

theorem matchDescriptors_knn_some {Mat : Type} (env : MatchEnv Mat)
    (kPtsSource kPtsRef : List KeyPoint) (descSource descRef : Mat)
    (descriptorType : String)
    (hknn : ∀ row ∈ env.knnMatch (Matcher.BFMatcher (bfNormType descriptorType) false)
      descSource descRef 2, 2 ≤ row.length) :
    ∃ out, matchDescriptors env kPtsSource kPtsRef descSource descRef []
        descriptorType "MAT_BF" "SEL_KNN" = some ⟨out, descSource, descRef⟩ := by
  rw [matchDescriptors_bf_knn]
  have hsome := (ratioFilter_isSome_iff _ []).mpr hknn
  obtain ⟨out, hout⟩ := Option.isSome_iff_exists.mp hsome
  exact ⟨out, by rw [hout]; rfl⟩

theorem evictIfFull_length {α : Type} (dataBuffer : List α)
    (h : dataBuffer.length ≤ 2) :
    (evictIfFull dataBufferSize dataBuffer).length = min dataBuffer.length 1 := by
  unfold evictIfFull dataBufferSize
  split
  · rw [List.eraseIdx_zero, List.length_tail]; omega
  · omega

theorem processImageWith_of_some {Img Mat T : Type}
    (read : List DMatch → Nat → Option DMatch) (env : Env Img Mat T)
    (detector descriptor : String) (imgStartIndex imgIndex : Nat)
    (st st2 : RunState Img Mat T)
    (hdet : detector ∈ detectors) (hdesc : descriptor ∈ descriptors)
    (hbuf : st.dataBuffer.length ≤ 2)
    (hrun : processImageWith read env detector descriptor imgStartIndex st imgIndex =
      some st2) :
    st2.dataBuffer.length = min (st.dataBuffer.length + 1) 2 ∧
    ((st.dataBuffer = [] ∧ st2.excel_file = st.excel_file) ∨
     (st.dataBuffer ≠ [] ∧ ∃ m, st2.excel_file = st.excel_file ++
        [⟨detector, roiKeypointCount env detector (imgStartIndex + imgIndex),
          detTimeOf env detector (imgStartIndex + imgIndex), descriptor,
          env.descTime descriptor (env.imread (imgStartIndex + imgIndex)), m⟩])) := by
  obtain ⟨detected, hdetect⟩ :=
    detectKeypoints_known env detector (env.imread (imgStartIndex + imgIndex)) hdet
  have hcount : roiKeypointCount env detector (imgStartIndex + imgIndex) =
      (detected.filter vehicleRect.contains).length := by
    simp only [roiKeypointCount, hdetect]
  have holder := evictIfFull_length st.dataBuffer hbuf
  unfold processImageWith at hrun
  simp only [hdetect, focusOnVehicle_eq, descKeypoints_known env _ _ descriptor hdesc] at hrun
  by_cases hempty : st.dataBuffer = []
  · have ho : evictIfFull dataBufferSize st.dataBuffer = [] := by
      rw [hempty]; rfl
    rw [ho] at hrun
    simp only [List.nil_append, List.length_singleton, gt_iff_lt, Nat.lt_irrefl,
      if_false] at hrun
    have hst := Option.some.inj hrun
    subst hst
    exact ⟨by simp [hempty], Or.inl ⟨hempty, rfl⟩⟩
  · have hpos : 0 < st.dataBuffer.length := List.length_pos.mpr hempty
    have holen : (evictIfFull dataBufferSize st.dataBuffer).length = 1 := by
      rw [holder]; omega
    obtain ⟨prev, hprev⟩ : ∃ prev, evictIfFull dataBufferSize st.dataBuffer = [prev] :=
      List.length_eq_one.mp holen
    rw [hprev] at hrun
    simp only [List.length_append, List.length_singleton, gt_iff_lt,
      show (1 : Nat) < 1 + 1 from by omega, if_true, List.getLast?_singleton] at hrun
    split at hrun
    · cases hrun
    · rename_i r hmatch
      have hst := Option.some.inj hrun
      subst hst
      refine ⟨?_, Or.inr ⟨hempty, r.matches_.length, ?_⟩⟩
      · simp; omega
      · simp only [hcount, detTimeOf]

theorem processImageWith_some {Img Mat T : Type}
    (read : List DMatch → Nat → Option DMatch) (env : Env Img Mat T)
    (detector descriptor : String) (imgStartIndex imgIndex : Nat)
    (st : RunState Img Mat T)
    (hdet : detector ∈ detectors) (hdesc : descriptor ∈ descriptors)
    (hmatch : ∀ kS kR dS dR dt, ∃ r, matchDescriptorsWith read env.search kS kR dS dR []
      dt "MAT_BF" "SEL_KNN" = some r) :
    ∃ st2, processImageWith read env detector descriptor imgStartIndex st imgIndex =
      some st2 := by
  obtain ⟨detected, hdetect⟩ :=
    detectKeypoints_known env detector (env.imread (imgStartIndex + imgIndex)) hdet
  unfold processImageWith
  simp only [hdetect, focusOnVehicle_eq, descKeypoints_known env _ _ descriptor hdesc]
  split
  · rename_i hlen
    cases hlast : (evictIfFull dataBufferSize st.dataBuffer).getLast? with
    | none =>
      exfalso
      rw [List.getLast?_eq_none_iff] at hlast
      rw [hlast] at hlen
      simp at hlen
    | some prev =>
      simp only
      obtain ⟨r, hr⟩ := hmatch prev.keypoints
        (env.compute descriptor (env.imread (imgStartIndex + imgIndex))
          (detected.filter vehicleRect.contains)).1
        prev.descriptors
        (env.compute descriptor (env.imread (imgStartIndex + imgIndex))
          (detected.filter vehicleRect.contains)).2
        (descriptorType2 descriptor)
      rw [hr]
      exact ⟨_, rfl⟩
  · exact ⟨_, rfl⟩

theorem acceptedPairs_known :
    ∀ p ∈ acceptedPairs, p.1 ∈ detectors ∧ p.2 ∈ descriptors := by
  decide

theorem run_of_some {Img Mat T : Type}
    (read : List DMatch → Nat → Option DMatch) (env : Env Img Mat T)
    (detector descriptor : String) (imgStartIndex : Nat) (excel_file : List (ResultRow T))
    (hdet : detector ∈ detectors) (hdesc : descriptor ∈ descriptors) (n : Nat)
    (st : RunState Img Mat T)
    (hrun : (List.range n).foldlM (processImageWith read env detector descriptor imgStartIndex)
        ⟨[], excel_file⟩ = some st) :
    st.dataBuffer.length = min n 2 ∧
    ∃ ms : Nat → Nat, st.excel_file = excel_file ++ (List.range (n - 1)).map
      (fun i => resultRowAt env detector descriptor imgStartIndex i (ms i)) := by
  induction n generalizing st with
  | zero =>
    have hst : (⟨[], excel_file⟩ : RunState Img Mat T) = st := Option.some.inj hrun
    subst hst
    exact ⟨rfl, fun _ => 0, by simp⟩
  | succ n ih =>
    rw [List.range_succ, List.foldlM_append] at hrun
    cases hpre : (List.range n).foldlM
        (processImageWith read env detector descriptor imgStartIndex) ⟨[], excel_file⟩ with
    | none => rw [hpre] at hrun; simp at hrun
    | some st1 =>
      rw [hpre] at hrun
      have hstep : processImageWith read env detector descriptor imgStartIndex st1 n =
          some st := by
        simpa using hrun
      obtain ⟨hlen, ms, hrows⟩ := ih st1 hpre
      obtain ⟨hlen2, hcase⟩ := processImageWith_of_some read env detector descriptor
        imgStartIndex n st1 st hdet hdesc (by rw [hlen]; exact Nat.min_le_right _ _) hstep
      have hlen3 : st.dataBuffer.length = min (n + 1) 2 := by rw [hlen2, hlen]; omega
      rcases hcase with ⟨hempty, hsame⟩ | ⟨hne, m, hrow⟩
      · have hn : n = 0 := by
          have h0 : st1.dataBuffer.length = 0 := by rw [hempty]; rfl
          rw [hlen] at h0; omega
        subst hn
        refine ⟨hlen3, ms, ?_⟩
        rw [hsame, hrows]
      · have hn : 0 < n := by
          have h0 : 0 < st1.dataBuffer.length := List.length_pos.mpr hne
          rw [hlen] at h0; omega
        obtain ⟨k, rfl⟩ : ∃ k, n = k + 1 := ⟨n - 1, by omega⟩
        refine ⟨hlen3, fun i => if i = k then m else ms i, ?_⟩
        rw [hrow, hrows]
        simp only [Nat.add_sub_cancel, List.range_succ, List.map_append, List.map_cons,
          List.map_nil, if_true, List.append_assoc]
        congr 1
        congr 1
        · apply List.map_congr_left
          intro i hi
          have hik : i ≠ k := Nat.ne_of_lt (List.mem_range.mp hi)
          simp only [hik, if_false]

theorem run_some {Img Mat T : Type}
    (read : List DMatch → Nat → Option DMatch) (env : Env Img Mat T)
    (detector descriptor : String) (imgStartIndex : Nat) (st0 : RunState Img Mat T)
    (hdet : detector ∈ detectors) (hdesc : descriptor ∈ descriptors)
    (hmatch : ∀ kS kR dS dR dt, ∃ r, matchDescriptorsWith read env.search kS kR dS dR []
      dt "MAT_BF" "SEL_KNN" = some r) (n : Nat) :
    ∃ st, (List.range n).foldlM (processImageWith read env detector descriptor imgStartIndex)
      st0 = some st := by
  induction n with
  | zero => exact ⟨st0, rfl⟩
  | succ n ih =>
    obtain ⟨st1, hpre⟩ := ih
    obtain ⟨st2, hstep⟩ := processImageWith_some read env detector descriptor
      imgStartIndex n st1 hdet hdesc hmatch
    refine ⟨st2, ?_⟩
    rw [List.range_succ, List.foldlM_append, hpre]
    simp [hstep]

theorem processImageWith_checked_unchecked {Img Mat T : Type}
    (oob : List DMatch → Nat → DMatch) (env : Env Img Mat T)
    (detector descriptor : String) (imgStartIndex imgIndex : Nat)
    (st st2 : RunState Img Mat T)
    (h : processImageWith checkedRead env detector descriptor imgStartIndex st imgIndex =
      some st2) :
    processImageWith (uncheckedRead oob) env detector descriptor imgStartIndex st imgIndex =
      some st2 := by
  unfold processImageWith at h ⊢
  dsimp only at h ⊢
  split
  · rename_i hd; rw [hd] at h; cases h
  · rename_i detected det_time hd
    rw [hd] at h
    dsimp only at h
    split
    · rename_i hf; rw [hf] at h; cases h
    · rename_i keypoints hf
      rw [hf] at h
      dsimp only at h
      split
      · rename_i hk; rw [hk] at h; cases h
      · rename_i described descriptors desc_time hk
        rw [hk] at h
        dsimp only at h
        split
        · rename_i hlen
          rw [if_pos hlen] at h
          split
          · rename_i hl; rw [hl] at h; cases h
          · rename_i prev hl
            rw [hl] at h
            dsimp only at h
            cases hm : matchDescriptorsWith checkedRead env.search prev.keypoints described
                prev.descriptors descriptors [] (descriptorType2 descriptor)
                "MAT_BF" "SEL_KNN" with
            | none => rw [hm] at h; cases h
            | some r =>
              rw [hm] at h
              rw [matchDescriptors_checked_unchecked oob _ _ _ _ _ _ r hm]
              exact h
        · rename_i hlen
          rw [if_neg hlen] at h
          exact h

theorem run_checked_unchecked {Img Mat T : Type}
    (oob : List DMatch → Nat → DMatch) (env : Env Img Mat T)
    (detector descriptor : String) (imgStartIndex : Nat) (st0 st : RunState Img Mat T)
    (idxs : List Nat)
    (h : idxs.foldlM (processImageWith checkedRead env detector descriptor imgStartIndex)
      st0 = some st) :
    idxs.foldlM (processImageWith (uncheckedRead oob) env detector descriptor imgStartIndex)
      st0 = some st := by
  induction idxs generalizing st0 with
  | nil => exact h
  | cons i rest ih =>
    rw [List.foldlM_cons] at h ⊢
    cases hstep : processImageWith checkedRead env detector descriptor imgStartIndex st0 i with
    | none => rw [hstep] at h; simp at h
    | some st1 =>
      rw [hstep] at h
      rw [processImageWith_checked_unchecked oob env detector descriptor imgStartIndex i
        st0 st1 hstep]
      exact ih st1 (by simpa using h)

/-- C6: for every accepted pair, a run over the image file numbers
`imgStartIndex` to `imgEndIndex` leaves the report extended by exactly one row
per image beyond the first, in increasing image order and each carrying the
run's detector and descriptor names, so `imgEndIndex - imgStartIndex` rows for
`imgEndIndex - imgStartIndex + 1` images: none after the first image, 9 for
the fixed range 0..9 and 2 for a 3-image sequence.  This holds with the reads
of the k-NN rows as `operator[]` performs them, whatever a read outside a row
yields, and a run that reads no row out of bounds writes the same report with
the reads bound-checked. -/
theorem result_rows_per_run {Img Mat T : Type} (env : Env Img Mat T)
    (oob : List DMatch → Nat → DMatch)
    (detector descriptor : String) (imgStartIndex imgEndIndex : Nat)
    (excel_file : List (ResultRow T))
    (hpair : (detector, descriptor) ∈ acceptedPairs)
    (hrange : imgStartIndex ≤ imgEndIndex) :
    (∃ ms : Nat → Nat,
      processImagesOnWith (uncheckedRead oob) env imgStartIndex imgEndIndex excel_file
          detector descriptor =
        some (excel_file ++ (List.range (imgEndIndex - imgStartIndex)).map
          (fun i => resultRowAt env detector descriptor imgStartIndex i (ms i)))) ∧
    processImagesOnWith (uncheckedRead oob) env imgStartIndex imgStartIndex excel_file
        detector descriptor = some excel_file ∧
    (∃ rows, processImagesOnWith (uncheckedRead oob) env imgStartIndex (imgStartIndex + 2)
        excel_file detector descriptor = some (excel_file ++ rows) ∧ rows.length = 2) ∧
    (∃ rows, processImagesWith (uncheckedRead oob) env excel_file detector descriptor =
        some (excel_file ++ rows) ∧
      rows.length = 9 ∧ ∀ r ∈ rows, r.detector = detector ∧ r.descriptor = descriptor) ∧
    (∀ out, processImagesOn env imgStartIndex imgEndIndex excel_file detector descriptor =
        some out →
      processImagesOnWith (uncheckedRead oob) env imgStartIndex imgEndIndex excel_file
        detector descriptor = some out) := by
  obtain ⟨hdet, hdesc⟩ := acceptedPairs_known _ hpair
  have hgen : ∀ first last : Nat, ∃ ms : Nat → Nat,
      processImagesOnWith (uncheckedRead oob) env first last excel_file detector descriptor =
        some (excel_file ++ (List.range (last - first)).map
          (fun i => resultRowAt env detector descriptor first i (ms i))) := by
    intro first last
    obtain ⟨st, hrun⟩ := run_some (uncheckedRead oob) env detector descriptor first
      ⟨[], excel_file⟩ hdet hdesc
      (fun kS kR dS dR dt => by
        obtain ⟨out, hout⟩ := matchDescriptorsWith_unchecked_some oob env.search kS kR dS dR [] dt
        exact ⟨_, hout⟩)
      (last - first + 1)
    obtain ⟨_, ms, hrows⟩ := run_of_some (uncheckedRead oob) env detector descriptor first
      excel_file hdet hdesc (last - first + 1) st hrun
    refine ⟨ms, ?_⟩
    unfold processImagesOnWith
    rw [hrun, Option.map_some', hrows, Nat.add_sub_cancel]
  refine ⟨hgen imgStartIndex imgEndIndex, ?_, ?_, ?_, ?_⟩
  · obtain ⟨ms, h⟩ := hgen imgStartIndex imgStartIndex
    rw [h]; simp
  · obtain ⟨ms, h⟩ := hgen imgStartIndex (imgStartIndex + 2)
    exact ⟨_, h, by simp⟩
  · obtain ⟨ms, h⟩ := hgen 0 9
    refine ⟨_, h, by simp, ?_⟩
    intro r hr
    obtain ⟨i, _, rfl⟩ := List.mem_map.mp hr
    exact ⟨rfl, rfl⟩
  · intro out hout
    unfold processImagesOn processImagesOnWith at hout
    unfold processImagesOnWith
    cases hfold : (List.range (imgEndIndex - imgStartIndex + 1)).foldlM
        (processImageWith checkedRead env detector descriptor imgStartIndex)
        ⟨[], excel_file⟩ with
    | none => rw [hfold] at hout; cases hout
    | some st =>
      rw [hfold] at hout
      rw [run_checked_unchecked oob env detector descriptor imgStartIndex _ st _ hfold]
      exact hout

theorem result_rows_per_run_witness :
    ("SHITOMASI", "BRISK") ∈ acceptedPairs ∧
    0 ≤ 9 ∧
    roiKeypointCount (demoEnv sparseCorners demoKnn) "SHITOMASI" 1 = 1 ∧
    processImages (demoEnv sparseCorners demoKnn) [] "SHITOMASI" "BRISK" = none ∧
    ∃ rows, processImagesWith (uncheckedRead (fun _ _ => ⟨0, 0, 0⟩))
        (demoEnv sparseCorners demoKnn) [] "SHITOMASI" "BRISK" = some ([] ++ rows) ∧
      rows.length = 9 ∧
      ∀ r ∈ rows, r.detector = "SHITOMASI" ∧ r.descriptor = "BRISK" :=
  ⟨by decide, Nat.zero_le 9, by decide!, by decide!,
    (result_rows_per_run (demoEnv sparseCorners demoKnn) (fun _ _ => ⟨0, 0, 0⟩)
      "SHITOMASI" "BRISK" 0 9 [] (by decide) (Nat.zero_le 9)).2.2.2.1⟩

/-! ## Match count and metric choice -/

/-- C7 (as stated, refuted): a frame pair with 3 keypoints in the previous
frame and 2 in the current one, every source row having two candidates that
index valid reference rows, writes a match count of 3, above
`min 3 2 = 2`. -/
theorem match_count_exceeds_min :
    roiKeypointCount (demoEnv demoCorners demoKnn) "SHITOMASI" 0 = 3 ∧
    roiKeypointCount (demoEnv demoCorners demoKnn) "SHITOMASI" 1 = 2 ∧
    (∀ row ∈ demoKnn 3 2, row.length = 2 ∧ ∀ m ∈ row, m.queryIdx < 3 ∧ m.trainIdx < 2) ∧
    processImagesOn (demoEnv demoCorners demoKnn) 0 1 [] "SHITOMASI" "BRISK" =
      some [⟨"SHITOMASI", 2, 1, "BRISK", 1, 3⟩] ∧
    ¬ (3 ≤ min (roiKeypointCount (demoEnv demoCorners demoKnn) "SHITOMASI" 0)
        (roiKeypointCount (demoEnv demoCorners demoKnn) "SHITOMASI" 1)) := by
  decide!

/-- C7 (amended): when the k-NN result has one row per keypoint of the
previous frame, the source of the match, each with two candidates, the number
of matches `matchDescriptors` emits in `SEL_KNN` mode is at most the keypoint
count of the previous frame. -/
theorem match_count_le_source_rows {Mat : Type} (env : MatchEnv Mat)
    (kPtsSource kPtsRef : List KeyPoint) (descSource descRef : Mat)
    (descriptorType : String)
    (hrows : ∀ row ∈ env.knnMatch (Matcher.BFMatcher (bfNormType descriptorType) false)
      descSource descRef 2, 2 ≤ row.length)
    (hlen : (env.knnMatch (Matcher.BFMatcher (bfNormType descriptorType) false)
      descSource descRef 2).length = kPtsSource.length) :
    ∃ r, matchDescriptors env kPtsSource kPtsRef descSource descRef []
        descriptorType "MAT_BF" "SEL_KNN" = some r ∧
      r.matches_.length ≤ kPtsSource.length := by
  obtain ⟨out, hout⟩ := matchDescriptors_knn_some env kPtsSource kPtsRef descSource descRef
    descriptorType hrows
  refine ⟨_, hout, ?_⟩
  rw [matchDescriptors_bf_knn] at hout
  cases hfilter : ratioFilter
      (env.knnMatch (Matcher.BFMatcher (bfNormType descriptorType) false) descSource descRef 2)
      [] with
  | none => rw [hfilter] at hout; cases hout
  | some out2 =>
    rw [hfilter] at hout
    have hsame : out2 = out := by
      have h := Option.some.inj hout
      exact congrArg MatchResult.matches_ h
    have hle := ratioFilter_length_le _ [] out2 hfilter
    rw [hlen, hsame] at hle
    simpa using hle

theorem match_count_le_source_rows_witness :
    (∀ row ∈ (demoEnv demoCorners demoKnn).search.knnMatch
        (Matcher.BFMatcher (bfNormType "DES_BINARY") false) 3 2 2, 2 ≤ row.length) ∧
    ((demoEnv demoCorners demoKnn).search.knnMatch
        (Matcher.BFMatcher (bfNormType "DES_BINARY") false) 3 2 2).length =
      [(⟨600, 200, 4, 0⟩ : KeyPoint), ⟨610, 210, 4, 0⟩, ⟨620, 220, 4, 0⟩].length ∧
    ∃ r, matchDescriptors (demoEnv demoCorners demoKnn).search
        [⟨600, 200, 4, 0⟩, ⟨610, 210, 4, 0⟩, ⟨620, 220, 4, 0⟩]
        [⟨600, 200, 4, 0⟩, ⟨610, 210, 4, 0⟩] 3 2 [] "DES_BINARY" "MAT_BF" "SEL_KNN" = some r ∧
      r.matches_.length ≤
        [(⟨600, 200, 4, 0⟩ : KeyPoint), ⟨610, 210, 4, 0⟩, ⟨620, 220, 4, 0⟩].length :=
  ⟨by decide, by decide,
    match_count_le_source_rows (demoEnv demoCorners demoKnn).search
      [⟨600, 200, 4, 0⟩, ⟨610, 210, 4, 0⟩, ⟨620, 220, 4, 0⟩]
      [⟨600, 200, 4, 0⟩, ⟨610, 210, 4, 0⟩] 3 2 "DES_BINARY" (by decide) (by decide)⟩

/-- C8 (as stated, refuted): called with the unrecognised family `DES_FOO`,
the brute-force matcher does not fail; the search capability is invoked with
the Hamming norm and its match is returned. -/
theorem metric_not_validated :
    (matchDescriptors hammingProbe [] [] () () [] "DES_FOO" "MAT_BF" "SEL_KNN").map
        (fun r => r.matches_) = some [⟨0, 0, 1⟩] ∧
    bfNormType "DES_FOO" = NormType.NORM_HAMMING := by
  decide!

/-- C8 (amended): `matchDescriptors` does not validate the metric family
before the search capability is invoked.  With the brute-force matcher every
`descriptorType` other than `DES_HOG`, recognised or not, selects the Hamming
norm (`DES_HOG` selects the L2 norm) and the call is the `DES_BINARY` call on
the same arguments: in `SEL_KNN` mode the search capability is invoked with
the Hamming norm and its rows go through the ratio test, so the call returns
matches whenever those rows have two candidates, and with the reads of
`operator[]` it returns whatever rows the search capability gives. -/
theorem metric_defaults_to_hamming {Mat : Type} (env : MatchEnv Mat)
    (kPtsSource kPtsRef : List KeyPoint) (descSource descRef : Mat)
    (matches_ : List DMatch) (descriptorType selectorType : String)
    (hfamily : descriptorType ≠ "DES_HOG") :
    bfNormType descriptorType = NormType.NORM_HAMMING ∧
    bfNormType "DES_HOG" = NormType.NORM_L2 ∧
    matchDescriptors env kPtsSource kPtsRef descSource descRef matches_
        descriptorType "MAT_BF" selectorType =
      matchDescriptors env kPtsSource kPtsRef descSource descRef matches_
        "DES_BINARY" "MAT_BF" selectorType ∧
    matchDescriptors env kPtsSource kPtsRef descSource descRef matches_
        descriptorType "MAT_BF" "SEL_KNN" =
      (ratioFilter
        (env.knnMatch (Matcher.BFMatcher NormType.NORM_HAMMING false) descSource descRef 2)
        matches_).map (fun out => ⟨out, descSource, descRef⟩) ∧
    ((∀ row ∈ env.knnMatch (Matcher.BFMatcher NormType.NORM_HAMMING false)
        descSource descRef 2, 2 ≤ row.length) →
      ∃ out, matchDescriptors env kPtsSource kPtsRef descSource descRef matches_
        descriptorType "MAT_BF" "SEL_KNN" = some ⟨out, descSource, descRef⟩) ∧
    (∀ oob, ∃ out, matchDescriptorsWith (uncheckedRead oob) env kPtsSource kPtsRef
        descSource descRef matches_ descriptorType "MAT_BF" "SEL_KNN" =
      some ⟨out, descSource, descRef⟩) := by
  have hnorm : bfNormType descriptorType = NormType.NORM_HAMMING := by
    simp only [bfNormType, hfamily, if_false]
  have hbin : bfNormType "DES_BINARY" = NormType.NORM_HAMMING := by decide
  refine ⟨hnorm, by decide, ?_, ?_, ?_, ?_⟩
  · simp only [matchDescriptors, matchDescriptorsWith, hnorm, hbin]
  · rw [matchDescriptors_bf_knn, hnorm]
  · intro hrows
    rw [matchDescriptors_bf_knn, hnorm]
    have hsome := (ratioFilter_isSome_iff _ matches_).mpr hrows
    obtain ⟨out, hout⟩ := Option.isSome_iff_exists.mp hsome
    exact ⟨out, by rw [hout]; rfl⟩
  · intro oob
    exact matchDescriptorsWith_unchecked_some oob env kPtsSource kPtsRef descSource descRef
      matches_ descriptorType

theorem metric_defaults_to_hamming_witness :
    "DES_FOO" ≠ "DES_HOG" ∧
    matchDescriptors hammingProbe [] [] () () [] "DES_FOO" "MAT_BF" "SEL_KNN" =
      matchDescriptors hammingProbe [] [] () () [] "DES_BINARY" "MAT_BF" "SEL_KNN" ∧
    ∃ out, matchDescriptors hammingProbe [] [] () () [] "DES_FOO" "MAT_BF" "SEL_KNN" =
      some ⟨out, (), ()⟩ :=
  ⟨by decide,
    (metric_defaults_to_hamming hammingProbe [] [] () () [] "DES_FOO" "SEL_KNN"
      (by decide)).2.2.1,
    (metric_defaults_to_hamming hammingProbe [] [] () () [] "DES_FOO" "SEL_KNN"
      (by decide)).2.2.2.2.1 (by decide)⟩

/-! ## Index safety of the ratio-test loop in the pipeline -/

theorem matchDescriptors_short_row {Mat : Type} (env : MatchEnv Mat)
    (kPtsSource kPtsRef : List KeyPoint) (descSource descRef : Mat)
    (matches_ : List DMatch) (descriptorType : String)
    (hshort : ∃ row ∈ env.knnMatch (Matcher.BFMatcher (bfNormType descriptorType) false)
      descSource descRef 2, row.length < 2) :
    matchDescriptors env kPtsSource kPtsRef descSource descRef matches_
      descriptorType "MAT_BF" "SEL_KNN" = none := by
  rw [matchDescriptors_bf_knn]
  cases hfilter : ratioFilter
      (env.knnMatch (Matcher.BFMatcher (bfNormType descriptorType) false) descSource descRef 2)
      matches_ with
  | none => rfl
  | some out =>
    have hall := (ratioFilter_isSome_iff _ matches_).mp (by rw [hfilter]; rfl)
    obtain ⟨row, hrow, hlt⟩ := hshort
    have := hall row hrow
    omega

theorem matchDescriptorsWith_checked_short_row {Mat : Type} (env : MatchEnv Mat)
    (kPtsSource kPtsRef : List KeyPoint) (descSource descRef : Mat)
    (matches_ : List DMatch) (descriptorType : String)
    (hshort : ∃ row ∈ env.knnMatch (Matcher.BFMatcher (bfNormType descriptorType) false)
      descSource descRef 2, row.length < 2) :
    matchDescriptorsWith checkedRead env kPtsSource kPtsRef descSource descRef matches_
      descriptorType "MAT_BF" "SEL_KNN" = none :=
  matchDescriptors_short_row env kPtsSource kPtsRef descSource descRef matches_
    descriptorType hshort

theorem evictIfFull_ne_nil {α : Type} (dataBuffer : List α) (h : dataBuffer ≠ []) :
    evictIfFull dataBufferSize dataBuffer ≠ [] := by
  unfold evictIfFull dataBufferSize
  split
  · rename_i hge
    intro hnil
    have hlen := congrArg List.length hnil
    rw [List.eraseIdx_zero, List.length_tail] at hlen
    simp at hlen
    omega
  · exact h

theorem processImage_buffer_ne_nil {Img Mat T : Type} (env : Env Img Mat T)
    (detector descriptor : String) (imgStartIndex imgIndex : Nat)
    (st st2 : RunState Img Mat T)
    (h : processImage env detector descriptor imgStartIndex st imgIndex = some st2) :
    st2.dataBuffer ≠ [] := by
  unfold processImage processImageWith at h
  dsimp only at h
  split at h
  · cases h
  · split at h
    · cases h
    · split at h
      · cases h
      · split at h
        · split at h
          · cases h
          · split at h
            · cases h
            · cases h; simp
        · cases h; simp

theorem processImage_short_row {Img Mat T : Type} (env : Env Img Mat T)
    (detector descriptor : String) (imgStartIndex imgIndex : Nat)
    (st : RunState Img Mat T)
    (hshort : ∀ m a b, ∃ row ∈ env.search.knnMatch m a b 2, row.length < 2)
    (hbuf : st.dataBuffer ≠ []) :
    processImage env detector descriptor imgStartIndex st imgIndex = none := by
  have holder := evictIfFull_ne_nil st.dataBuffer hbuf
  cases hrun : processImage env detector descriptor imgStartIndex st imgIndex with
  | none => rfl
  | some st2 =>
    exfalso
    unfold processImage processImageWith at hrun
    dsimp only at hrun
    split at hrun
    · cases hrun
    · split at hrun
      · cases hrun
      · split at hrun
        · cases hrun
        · split at hrun
          · split at hrun
            · cases hrun
            · split at hrun
              · cases hrun
              · rename_i r hmatch
                rw [matchDescriptorsWith_checked_short_row _ _ _ _ _ _ _ (hshort _ _ _)] at hmatch
                cases hmatch
          · rename_i hlen
            apply hlen
            have hpos := List.length_pos.mpr holder
            rw [List.length_append, List.length_singleton]
            omega

theorem run_short_row {Img Mat T : Type} (env : Env Img Mat T)
    (detector descriptor : String) (imgStartIndex : Nat) (st : RunState Img Mat T)
    (hshort : ∀ m a b, ∃ row ∈ env.search.knnMatch m a b 2, row.length < 2) (n : Nat) :
    (List.range (n + 2)).foldlM (processImage env detector descriptor imgStartIndex) st =
      none := by
  have hrange : List.range (n + 2) = 0 :: 1 :: (List.range n).map (fun i => i + 2) := by
    rw [List.range_succ_eq_map, List.range_succ_eq_map]
    simp [Function.comp_def]
  rw [hrange, List.foldlM_cons]
  cases h0 : processImage env detector descriptor imgStartIndex st 0 with
  | none => rfl
  | some st1 =>
    have hne := processImage_buffer_ne_nil env detector descriptor imgStartIndex 0 st st1 h0
    have h1 := processImage_short_row env detector descriptor imgStartIndex 1 st1 hshort hne
    simp only [Option.some_bind, Option.bind_eq_bind, List.foldlM_cons, h1, Option.none_bind]

/-- C10: in `SEL_KNN` mode the reads `matches_vect[i][0]` and
`matches_vect[i][1]` of the ratio-test loop are all in bounds, and the call
returns, iff every row of the k-NN result has at least 2 candidates; a row
with fewer is read out of bounds, not skipped.  Neither `matchDescriptors`
nor `processImages` guards against it: a run whose search capability returns
a short row for the frame pairs faults at the second image, as the run does
in which the ROI filter leaves a single keypoint in the current frame. -/
theorem ratio_loop_index_safety {Mat : Type} (env : MatchEnv Mat)
    (kPtsSource kPtsRef : List KeyPoint) (descSource descRef : Mat)
    (matches_ : List DMatch) (descriptorType : String) :
    ((∃ r, matchDescriptors env kPtsSource kPtsRef descSource descRef matches_
        descriptorType "MAT_BF" "SEL_KNN" = some r) ↔
      ∀ row ∈ env.knnMatch (Matcher.BFMatcher (bfNormType descriptorType) false)
        descSource descRef 2, 2 ≤ row.length) ∧
    ((∃ row ∈ env.knnMatch (Matcher.BFMatcher (bfNormType descriptorType) false)
        descSource descRef 2, row.length < 2) →
      matchDescriptors env kPtsSource kPtsRef descSource descRef matches_
        descriptorType "MAT_BF" "SEL_KNN" = none) ∧
    (∀ (Img T : Type) (penv : Env Img Mat T) (detector descriptor : String)
        (imgStartIndex imgEndIndex : Nat) (excel_file : List (ResultRow T)),
      (∀ m a b, ∃ row ∈ penv.search.knnMatch m a b 2, row.length < 2) →
      imgStartIndex < imgEndIndex →
      processImagesOn penv imgStartIndex imgEndIndex excel_file detector descriptor = none) ∧
    (roiKeypointCount (demoEnv sparseCorners demoKnn) "SHITOMASI" 1 = 1 ∧
      demoKnn 2 1 = [[⟨0, 0, 1⟩], [⟨1, 0, 1⟩]] ∧
      processImagesOn (demoEnv sparseCorners demoKnn) 0 1 [] "SHITOMASI" "BRISK" = none) := by
  refine ⟨?_, matchDescriptors_short_row env _ _ _ _ _ _, ?_, by decide!⟩
  · rw [matchDescriptors_bf_knn, ← ratioFilter_isSome_iff _ matches_]
    cases ratioFilter
      (env.knnMatch (Matcher.BFMatcher (bfNormType descriptorType) false) descSource descRef 2)
      matches_ with
    | none => simp
    | some out => simp
  · intro Img T penv detector descriptor imgStartIndex imgEndIndex excel_file hshort hlt
    obtain ⟨n, hn⟩ : ∃ n, imgEndIndex - imgStartIndex + 1 = n + 2 :=
      ⟨imgEndIndex - imgStartIndex - 1, by omega⟩
    unfold processImagesOn processImagesOnWith
    rw [hn]
    have hrun := run_short_row penv detector descriptor imgStartIndex ⟨[], excel_file⟩ hshort n
    unfold processImage at hrun
    rw [hrun]
    rfl

/-! ## Harris detector: what the final list holds -/

theorem harrisRow_eq_foldl (overlap : KeyPoint → KeyPoint → ℚ) (i : Nat)
    (row : List Nat) (j : Nat) (keypoints : List KeyPoint) :
    harrisRow overlap i row j keypoints =
      (rowCandidates i row j).foldl (insertCandidate overlap) keypoints := by
  induction row generalizing j keypoints with
  | nil => rfl
  | cons v rest ih =>
    rw [harrisRow, rowCandidates, List.foldl_append, ih]
    by_cases hv : v > threshold
    · simp only [hv, if_true, List.foldl_cons, List.foldl_nil]
    · simp only [hv, if_false, List.foldl_nil]

theorem harrisRows_eq_foldl (overlap : KeyPoint → KeyPoint → ℚ)
    (rows : List (List Nat)) (i : Nat) (keypoints : List KeyPoint) :
    harrisRows overlap rows i keypoints =
      (imageCandidates rows i).foldl (insertCandidate overlap) keypoints := by
  induction rows generalizing i keypoints with
  | nil => rfl
  | cons row rest ih =>
    rw [harrisRows, imageCandidates, List.foldl_append, ih, harrisRow_eq_foldl]

theorem overlapScan_length (overlap : KeyPoint → KeyPoint → ℚ) (c : KeyPoint)
    (keypoints : List KeyPoint) :
    (overlapScan overlap c keypoints).1.length = keypoints.length := by
  induction keypoints with
  | nil => rfl
  | cons x xs ih =>
    rw [overlapScan]
    split
    · rfl
    · simp only [List.length_cons, ih]

theorem overlapScan_mem (overlap : KeyPoint → KeyPoint → ℚ) (c kp : KeyPoint)
    (keypoints : List KeyPoint) (h : kp ∈ (overlapScan overlap c keypoints).1) :
    kp ∈ keypoints ∨ kp = c := by
  induction keypoints with
  | nil => simp [overlapScan] at h
  | cons x xs ih =>
    rw [overlapScan] at h
    split at h
    · rcases List.mem_cons.mp h with h1 | h1
      · by_cases hr : x.response < c.response
        · rw [if_pos hr] at h1; exact Or.inr h1
        · rw [if_neg hr] at h1; exact Or.inl (h1 ▸ List.mem_cons_self _ _)
      · exact Or.inl (List.mem_cons_of_mem _ h1)
    · rcases List.mem_cons.mp h with h1 | h1
      · exact Or.inl (h1 ▸ List.mem_cons_self _ _)
      · rcases ih h1 with h2 | h2
        · exact Or.inl (List.mem_cons_of_mem _ h2)
        · exact Or.inr h2

theorem insertCandidate_length (overlap : KeyPoint → KeyPoint → ℚ)
    (keypoints : List KeyPoint) (c : KeyPoint) :
    keypoints.length ≤ (insertCandidate overlap keypoints c).length ∧
    (insertCandidate overlap keypoints c).length ≤ keypoints.length + 1 := by
  unfold insertCandidate
  split
  · rw [List.length_append, overlapScan_length]
    simp
  · rw [overlapScan_length]
    omega

theorem insertCandidate_mem (overlap : KeyPoint → KeyPoint → ℚ)
    (keypoints : List KeyPoint) (c kp : KeyPoint)
    (h : kp ∈ insertCandidate overlap keypoints c) :
    kp ∈ keypoints ∨ kp = c := by
  unfold insertCandidate at h
  split at h
  · rcases List.mem_append.mp h with h1 | h1
    · exact overlapScan_mem overlap c kp keypoints h1
    · exact Or.inr (List.mem_singleton.mp h1)
  · exact overlapScan_mem overlap c kp keypoints h

theorem foldl_insertCandidate_mem (overlap : KeyPoint → KeyPoint → ℚ)
    (cs keypoints : List KeyPoint) (kp : KeyPoint)
    (h : kp ∈ cs.foldl (insertCandidate overlap) keypoints) :
    kp ∈ keypoints ∨ kp ∈ cs := by
  induction cs generalizing keypoints with
  | nil => exact Or.inl h
  | cons c cs ih =>
    rcases ih _ h with h1 | h1
    · rcases insertCandidate_mem overlap keypoints c kp h1 with h2 | h2
      · exact Or.inl h2
      · exact Or.inr (h2 ▸ List.mem_cons_self _ _)
    · exact Or.inr (List.mem_cons_of_mem _ h1)

theorem foldl_insertCandidate_length (overlap : KeyPoint → KeyPoint → ℚ)
    (cs keypoints : List KeyPoint) :
    (cs.foldl (insertCandidate overlap) keypoints).length ≤ keypoints.length + cs.length := by
  induction cs generalizing keypoints with
  | nil => simp
  | cons c cs ih =>
    have h1 := ih (insertCandidate overlap keypoints c)
    have h2 := (insertCandidate_length overlap keypoints c).2
    rw [List.foldl_cons, List.length_cons]
    omega

theorem mem_rowCandidates (i : Nat) (row : List Nat) (j0 : Nat) (kp : KeyPoint)
    (h : kp ∈ rowCandidates i row j0) :
    ∃ (j v : Nat), row[j]? = some v ∧ threshold < v ∧
      kp = ⟨((j0 + j : Nat) : ℚ), (i : ℚ), 2 * apertureSize, (v : ℚ)⟩ := by
  induction row generalizing j0 with
  | nil => simp [rowCandidates] at h
  | cons v rest ih =>
    rw [rowCandidates] at h
    rcases List.mem_append.mp h with h1 | h1
    · by_cases hv : v > threshold
      · rw [if_pos hv, List.mem_singleton] at h1
        exact ⟨0, v, List.getElem?_cons_zero, hv, by rw [h1]; rfl⟩
      · rw [if_neg hv] at h1
        exact absurd h1 (List.not_mem_nil _)
    · obtain ⟨j, w, hget, hw, hkp⟩ := ih (j0 + 1) h1
      refine ⟨j + 1, w, ?_, hw, ?_⟩
      · rw [List.getElem?_cons_succ]; exact hget
      · rw [hkp]
        have : j0 + 1 + j = j0 + (j + 1) := by omega
        rw [this]

theorem mem_imageCandidates (rows : List (List Nat)) (i0 : Nat) (kp : KeyPoint)
    (h : kp ∈ imageCandidates rows i0) :
    ∃ (i j : Nat) (row : List Nat) (v : Nat),
      rows[i]? = some row ∧ row[j]? = some v ∧ threshold < v ∧
      kp = ⟨(j : ℚ), ((i0 + i : Nat) : ℚ), 2 * apertureSize, (v : ℚ)⟩ := by
  induction rows generalizing i0 with
  | nil => simp [imageCandidates] at h
  | cons row rest ih =>
    rw [imageCandidates] at h
    rcases List.mem_append.mp h with h1 | h1
    · obtain ⟨j, v, hget, hv, hkp⟩ := mem_rowCandidates i0 row 0 kp h1
      refine ⟨0, j, row, v, List.getElem?_cons_zero, hget, hv, ?_⟩
      rw [hkp]
      simp
    · obtain ⟨i, j, r, v, hrow, hget, hv, hkp⟩ := ih (i0 + 1) h1
      refine ⟨i + 1, j, r, v, ?_, hget, hv, ?_⟩
      · rw [List.getElem?_cons_succ]; exact hrow
      · rw [hkp]
        have : i0 + 1 + i = i0 + (i + 1) := by omega
        rw [this]

theorem abcImage_candidates : imageCandidates abcImage 0 = [kpA, kpB, kpC] := by
  decide!

/-- C11: on an empty keypoint vector every keypoint `detKeypointsHarris`
leaves is one of the scanned candidates (a pixel with response above 100, at
that pixel, of size 6), and each candidate grows the list by at most one; but
the list need not be pairwise non-overlapping: when `A = (10,10)` and
`B = (16,10)` do not overlap, `C = (13,11)` overlaps both and has a higher
response than `A`, the scan of `A`, `B`, `C` replaces `A` by `C` without
comparing `C` with `B`, and the final list is `[C, B]`, two keypoints whose
overlap exceeds 0. -/
theorem harris_not_pairwise_disjoint (overlap : KeyPoint → KeyPoint → ℚ)
    (norm_conv : List (List Nat))
    (hAB : ¬ overlap kpA kpB > 0) (hAC : overlap kpA kpC > 0) (hBC : overlap kpB kpC > 0) :
    (∀ kp ∈ detKeypointsHarris overlap [] norm_conv,
      ∃ (i j : Nat) (row : List Nat) (v : Nat),
        norm_conv[i]? = some row ∧ row[j]? = some v ∧ 100 < v ∧
        kp = ⟨(j : ℚ), (i : ℚ), 6, (v : ℚ)⟩) ∧
    (∀ (keypoints : List KeyPoint) (c : KeyPoint),
      keypoints.length ≤ (insertCandidate overlap keypoints c).length ∧
      (insertCandidate overlap keypoints c).length ≤ keypoints.length + 1) ∧
    (detKeypointsHarris overlap [] norm_conv).length ≤ (imageCandidates norm_conv 0).length ∧
    imageCandidates abcImage 0 = [kpA, kpB, kpC] ∧
    kpA.response < kpC.response ∧
    detKeypointsHarris overlap [] abcImage = [kpC, kpB] ∧
    (∃ p ∈ detKeypointsHarris overlap [] abcImage,
      ∃ q ∈ detKeypointsHarris overlap [] abcImage, p ≠ q ∧ overlap p q > 0) := by
  have hfinal : detKeypointsHarris overlap [] abcImage = [kpC, kpB] := by
    unfold detKeypointsHarris
    rw [harrisRows_eq_foldl, abcImage_candidates]
    have h1 : insertCandidate overlap [] kpA = [kpA] := rfl
    have h2 : insertCandidate overlap [kpA] kpB = [kpA, kpB] := by
      unfold insertCandidate
      rw [overlapScan_no_overlap overlap kpB [kpA]
        (fun x hx => by rw [List.mem_singleton] at hx; rw [hx]; exact hAB)]
      rfl
    have h3 : insertCandidate overlap [kpA, kpB] kpC = [kpC, kpB] := by
      unfold insertCandidate
      rw [show [kpA, kpB] = [] ++ kpA :: [kpB] from rfl,
        overlapScan_first_overlap overlap kpC kpA [] [kpB]
          (fun x hx => absurd hx (List.not_mem_nil _)) hAC]
      have hresp : kpA.response < kpC.response := by decide
      simp only [hresp, if_true, Bool.not_true, Bool.false_eq_true, if_false, List.nil_append]
    simp only [List.foldl_cons, List.foldl_nil, h1, h2, h3]
  refine ⟨?_, insertCandidate_length overlap, ?_, abcImage_candidates, by decide, hfinal, ?_⟩
  · intro kp hkp
    unfold detKeypointsHarris at hkp
    rw [harrisRows_eq_foldl] at hkp
    rcases foldl_insertCandidate_mem overlap _ [] kp hkp with h | h
    · exact absurd h (List.not_mem_nil _)
    · obtain ⟨i, j, row, v, hrow, hget, hv, hkp2⟩ := mem_imageCandidates norm_conv 0 kp h
      refine ⟨i, j, row, v, hrow, hget, hv, ?_⟩
      rw [hkp2, Nat.zero_add]
      have hsize : (2 * (apertureSize : ℚ)) = 6 := by norm_num [apertureSize]
      rw [hsize]
  · unfold detKeypointsHarris
    rw [harrisRows_eq_foldl]
    have h := foldl_insertCandidate_length overlap (imageCandidates norm_conv 0) []
    simpa using h
  · rw [hfinal]
    exact ⟨kpB, by simp, kpC, by simp, by decide, hBC⟩

theorem harris_not_pairwise_disjoint_witness :
    ¬ discOverlap kpA kpB > 0 ∧ discOverlap kpA kpC > 0 ∧ discOverlap kpB kpC > 0 ∧
    detKeypointsHarris discOverlap [] abcImage = [kpC, kpB] :=
  ⟨by decide!, by decide!, by decide!,
    (harris_not_pairwise_disjoint discOverlap abcImage (by decide!) (by decide!)
      (by decide!)).2.2.2.2.2.1⟩

end SFND
